import Mathlib

/-!
Verification of the Influence Estimation & Search Engine of the
Memetic_warfare repository, against its natural-language specification.

The TypeScript source is shallowly embedded: JavaScript numbers become
exact rationals (`ℚ`), `Record<string, number>` maps become
insertion-ordered association lists, JS `Set`s become insertion-ordered
duplicate-free lists, and `Math.random()` becomes an explicit stream of
draws (a function `ℕ → ℚ` together with a position that is threaded
through every stochastic call).  Unbounded `while` loops become fueled
recursion; theorems establish that the canonical fuel suffices where a
claim depends on it.
-/

namespace MemeticWarfare

/-- `node.ts`: propagation state of a person-node. -/
inductive NodeState where
  | susceptible
  | exposed
  | infected
  | resistant
deriving DecidableEq, BEq

/-- `node.ts`: continuous attributes of a person-node.
`political_leaning` is documented to lie in [-1,1], the rest in [0,1]. -/
structure NodeAttributes where
  political_leaning : ℚ
  emotional_susceptibility : ℚ
  critical_thinking : ℚ
  education_level : ℚ
  social_activity : ℚ
deriving DecidableEq

/-- `node.ts`: a person in the social network.  `trust_network` is the
JS record nodeId → trust weight, kept as an insertion-ordered
association list (JS `Object.entries` order).  The optional
visualization coordinates (x, y, vx, vy) are elided. -/
structure Node where
  id : String
  identity_class : String
  attributes : NodeAttributes
  trust_network : List (String × ℚ)
  current_beliefs : List String
  exposure_history : List String
  state : NodeState
deriving DecidableEq

/-- `meme.ts`: immutable attributes of a content item; `political_bias`
is documented in [-1,1], the rest in [0,1]. -/
structure MemeAttributes where
  political_bias : ℚ
  emotional_intensity : ℚ
  factual_accuracy : ℚ
  complexity : ℚ
  virality_factor : ℚ
  source_credibility : ℚ
deriving DecidableEq

/-- `meme.ts`: a content item.  `timestamp` is elided. -/
structure Meme where
  id : String
  content_type : String
  title : String
  attributes : MemeAttributes
  generation : ℕ
  parent_id : Option String
deriving DecidableEq

/-- `network.ts`: an undirected weighted edge (redundant with the
per-node trust maps). -/
structure Edge where
  source : String
  target : String
  trust_weight : ℚ
deriving DecidableEq

/-- `network.ts`: the trust graph.  The `metadata` block (type, size,
avg_degree, created_at) is elided. -/
structure Network where
  nodes : List Node
  edges : List Edge
deriving DecidableEq

/-- JS record read `m[key]`: first binding of `key` in the
insertion-ordered association list (`undefined` becomes `none`). -/
def recordLookup : List (String × ℚ) → String → Option ℚ
  | [], _ => none
  | (k, v) :: rest, key => if k = key then some v else recordLookup rest key

/-- JS record write `m[key] = v`: overwrite in place when the key is
present, append otherwise (JS objects keep insertion order). -/
def recordSet (m : List (String × ℚ)) (key : String) (v : ℚ) :
    List (String × ℚ) :=
  if (recordLookup m key).isSome then
    m.map (fun kv => if kv.1 = key then (key, v) else kv)
  else m ++ [(key, v)]

/-- JS `Set.add`: append if absent (JS sets keep insertion order), so
the list stays duplicate-free. -/
def setAdd (s : List String) (x : String) : List String :=
  if x ∈ s then s else s ++ [x]

/-- JS `Array.prototype.find` on the node array: first node with the
given id. -/
def findNode : List Node → String → Option Node
  | [], _ => none
  | n :: rest, nodeId => if n.id = nodeId then some n else findNode rest nodeId

/-- `propagation.ts` line 13: `clamp(value, min, max) =
Math.max(min, Math.min(max, value))`. -/
def clamp (value minV maxV : ℚ) : ℚ :=
  max minV (min maxV value)

/-- `propagation.ts` lines 20-55: probability that `node` accepts `meme`
from `sourceNode` over an edge of weight `trustWeight`.  (`sourceNode`
is unused by the body, exactly as in the source.) -/
def calculateAcceptanceProbability (node : Node) (meme : Meme)
    (_sourceNode : Node) (trustWeight : ℚ) : ℚ :=
  let BASE_RECEPTIVITY : ℚ := 0.3
  let trustFactor := trustWeight
  let politicalDistance :=
    |node.attributes.political_leaning - meme.attributes.political_bias|
  let politicalAlignment := 1 - politicalDistance
  let criticalThinkingPenalty :=
    if meme.attributes.factual_accuracy < 0.5 then
      node.attributes.critical_thinking * (1 - meme.attributes.factual_accuracy)
    else 0
  let alignmentScore := politicalAlignment * (1 - criticalThinkingPenalty)
  let viralityBoost :=
    1 + meme.attributes.virality_factor * node.attributes.emotional_susceptibility
  let probability := BASE_RECEPTIVITY * trustFactor * alignmentScore * viralityBoost
  clamp probability 0.05 0.95

/-- `propagation.ts` lines 60-75: probability that an infected node
re-shares the meme `daysSinceInfected` days after infection. -/
def calculateTransmissionProbability (node : Node) (meme : Meme)
    (daysSinceInfected : ℚ) : ℚ :=
  let noveltyFactor := max 0.3 (1 - daysSinceInfected / 7)
  let probability :=
    node.attributes.social_activity *
    meme.attributes.virality_factor *
    (1 + meme.attributes.emotional_intensity * 0.5) *
    noveltyFactor
  clamp probability 0.0 1.0

/-- `astar-modes.ts` lines 17-40: mode-A (pure social trust) edge cost
for traversing from `sourceNode` to `targetNode`. -/
def calculateSocialTrustCost (sourceNode targetNode : Node)
    (trustWeight : ℚ) : ℚ :=
  let baseCost := 1 - trustWeight
  let identitySimilarity : ℚ :=
    if sourceNode.identity_class = targetNode.identity_class then 0.8 else 1.0
  let politicalDistance :=
    |sourceNode.attributes.political_leaning - targetNode.attributes.political_leaning|
  let politicalFactor := 1 + politicalDistance * 0.3
  let activityFactor := 1 - targetNode.attributes.social_activity * 0.2
  let totalCost := baseCost * identitySimilarity * politicalFactor * activityFactor
  max 0.05 (min 2.0 totalCost)

/-- `astar-modes.ts` lines 47-101: mode-B (meme trust) edge cost; one
minus an acceptance probability that, unlike
`calculateAcceptanceProbability`, also includes a complexity penalty and
a source-credibility factor. -/
def calculateMemeTrustCost (node : Node) (meme : Meme)
    (_sourceNode : Node) (trustWeight : ℚ) : ℚ :=
  let BASE_RECEPTIVITY : ℚ := 0.3
  let trustFactor := trustWeight
  let politicalDistance :=
    |node.attributes.political_leaning - meme.attributes.political_bias|
  let politicalAlignment := 1 - politicalDistance
  let criticalThinkingPenalty :=
    if meme.attributes.factual_accuracy < 0.5 then
      node.attributes.critical_thinking * (1 - meme.attributes.factual_accuracy)
    else 0
  let complexityPenalty :=
    |meme.attributes.complexity - node.attributes.education_level| * 0.3
  let credibilityFactor := 0.7 + meme.attributes.source_credibility * 0.3
  let alignmentScore :=
    politicalAlignment * (1 - criticalThinkingPenalty) * (1 - complexityPenalty)
  let viralityBoost :=
    1 + meme.attributes.virality_factor * node.attributes.emotional_susceptibility
  let acceptanceProbability :=
    BASE_RECEPTIVITY * trustFactor * alignmentScore * viralityBoost * credibilityFactor
  let clampedProb := max 0.05 (min 0.95 acceptanceProbability)
  1 - clampedProb

/-- `astar-modes.ts` lines 107-129: mode-A heuristic from `currentNode`
toward `targetNode`. -/
def socialTrustHeuristic (currentNode targetNode : Node)
    (_network : Network) : ℚ :=
  let identityDistance : ℚ :=
    if currentNode.identity_class = targetNode.identity_class then 0 else 0.5
  let politicalDistance :=
    |currentNode.attributes.political_leaning - targetNode.attributes.political_leaning|
  let politicalCost := politicalDistance * 0.5
  let connectionCost :=
    match recordLookup currentNode.trust_network targetNode.id with
    | some directTrust => (1 - directTrust) * 0.5
    | none => 1.0
  let activityCost := (1 - targetNode.attributes.social_activity) * 0.3
  identityDistance + politicalCost + connectionCost + activityCost

/-- `astar-modes.ts` lines 135-168: mode-B heuristic from `currentNode`
toward `targetNode` for `meme`. -/
def memeTrustHeuristic (currentNode targetNode : Node) (meme : Meme)
    (_network : Network) : ℚ :=
  let targetMemeAlignment :=
    |targetNode.attributes.political_leaning - meme.attributes.political_bias|
  let alignmentCost := targetMemeAlignment * 1.5
  let criticalBarrier :=
    if meme.attributes.factual_accuracy < 0.5 then
      targetNode.attributes.critical_thinking * 0.8
    else 0
  let complexityMismatch :=
    |meme.attributes.complexity - targetNode.attributes.education_level| * 0.4
  let emotionalResistance :=
    (1 - targetNode.attributes.emotional_susceptibility) *
    (1 - meme.attributes.virality_factor) * 0.3
  let socialCost :=
    match recordLookup currentNode.trust_network targetNode.id with
    | some directTrust => (1 - directTrust) * 0.3
    | none => 0.8
  alignmentCost + criticalBarrier + complexityMismatch + emotionalResistance + socialCost

/-! ### Spec-side formulas (for comparison with the source definitions)

These definitions follow the words of the specification / claims, not
the source; they exist only so that refinement claims can compare the
two. -/

/-- Modelled from the spec wording of claim C1: the critical-thinking
penalty term. -/
def criticalPenaltySpec (node : Node) (meme : Meme) : ℚ :=
  if meme.attributes.factual_accuracy < 0.5 then
    node.attributes.critical_thinking * (1 - meme.attributes.factual_accuracy)
  else 0

/-- Modelled from the spec wording of claim C1: alignmentScore =
(1 − |political_leaning − political_bias|) × (1 − criticalPenalty). -/
def alignmentScoreSpec (node : Node) (meme : Meme) : ℚ :=
  (1 - |node.attributes.political_leaning - meme.attributes.political_bias|) *
    (1 - criticalPenaltySpec node meme)

/-- Modelled from the spec wording of claim C1: viralityBoost =
1 + virality_factor × emotional_susceptibility. -/
def viralityBoostSpec (node : Node) (meme : Meme) : ℚ :=
  1 + meme.attributes.virality_factor * node.attributes.emotional_susceptibility

/-- Modelled from the spec wording of claim C1: credibilityFactor =
0.7 + 0.3 × source_credibility. -/
def credibilityFactorSpec (meme : Meme) : ℚ :=
  0.7 + 0.3 * meme.attributes.source_credibility

/-- Modelled from the spec wording of claim C2: the complexity penalty
|complexity − education_level| × 0.3. -/
def complexityPenaltySpec (node : Node) (meme : Meme) : ℚ :=
  |meme.attributes.complexity - node.attributes.education_level| * 0.3

/-- The acceptance probability exactly as claim C1 states it (with the
credibilityFactor term included). -/
def acceptanceProbabilityClaimed (node : Node) (meme : Meme)
    (_sourceNode : Node) (trustWeight : ℚ) : ℚ :=
  clamp (0.3 * trustWeight * alignmentScoreSpec node meme *
    viralityBoostSpec node meme * credibilityFactorSpec meme) 0.05 0.95

/-! ### Concrete fixtures used by counterexamples and witnesses -/

/-- A neutral attribute vector. -/
def attrsZero : NodeAttributes :=
  { political_leaning := 0, emotional_susceptibility := 0,
    critical_thinking := 0, education_level := 0, social_activity := 0 }

/-- A concrete node with neutral attributes and no trust edges. -/
def nodeZero : Node :=
  { id := "n0", identity_class := "urban_professional",
    attributes := attrsZero, trust_network := [],
    current_beliefs := [], exposure_history := [],
    state := NodeState.susceptible }

/-- A concrete meme with perfect accuracy, zero bias/virality, and zero
source credibility (so the credibility factor is 0.7, not 1). -/
def memeZeroCred : Meme :=
  { id := "m0", content_type := "factual_news", title := "t",
    attributes :=
      { political_bias := 0, emotional_intensity := 0,
        factual_accuracy := 1, complexity := 0,
        virality_factor := 0, source_credibility := 0 },
    generation := 0, parent_id := none }

/-! ### C1: the acceptance model and the credibility factor -/

/-- C1 counterexample: `calculateAcceptanceProbability` does NOT equal
the claimed formula that includes the credibilityFactor term.  With
trust weight 1 and the neutral fixtures, the source returns 0.3 while
the claimed formula gives 0.3 × 0.7 = 0.21. -/
theorem C1_counterexample :
    calculateAcceptanceProbability nodeZero memeZeroCred nodeZero 1 ≠
      acceptanceProbabilityClaimed nodeZero memeZeroCred nodeZero 1 := by
  norm_num [calculateAcceptanceProbability, acceptanceProbabilityClaimed,
    alignmentScoreSpec, criticalPenaltySpec, viralityBoostSpec,
    credibilityFactorSpec, clamp, nodeZero, memeZeroCred, attrsZero]

/-- C1 (amended): for every node, meme, source node and trust weight,
`calculateAcceptanceProbability` returns
clamp(0.3 × trustWeight × alignmentScore × viralityBoost, 0.05, 0.95) —
the same formula as claimed but WITHOUT the credibilityFactor term,
which the source omits. -/
theorem C1_acceptance_formula (node : Node) (meme : Meme)
    (sourceNode : Node) (trustWeight : ℚ) :
    calculateAcceptanceProbability node meme sourceNode trustWeight =
      clamp (0.3 * trustWeight * alignmentScoreSpec node meme *
        viralityBoostSpec node meme) 0.05 0.95 := by
  unfold calculateAcceptanceProbability alignmentScoreSpec viralityBoostSpec
    criticalPenaltySpec
  rfl

/-! ### C2: mode-B cost versus the acceptance model -/

/-- C2 counterexample: the mode-B cost is not one minus
`calculateAcceptanceProbability`.  With the zero-credibility fixture the
cost is 1 − 0.21 = 0.79, while one minus the acceptance probability is
1 − 0.3 = 0.7. -/
theorem C2_counterexample :
    calculateMemeTrustCost nodeZero memeZeroCred nodeZero 1 ≠
      1 - calculateAcceptanceProbability nodeZero memeZeroCred nodeZero 1 := by
  norm_num [calculateMemeTrustCost, calculateAcceptanceProbability, clamp,
    nodeZero, memeZeroCred, attrsZero]

/-- C2 (amended): the mode-B cost equals one minus a clamped acceptance
probability that additionally multiplies in the complexity penalty
(1 − |complexity − education_level| × 0.3) and the credibility factor
(0.7 + 0.3 × source_credibility); it differs from
`calculateAcceptanceProbability`, which includes neither term. -/
theorem C2_memeTrustCost_formula (node : Node) (meme : Meme)
    (sourceNode : Node) (trustWeight : ℚ) :
    calculateMemeTrustCost node meme sourceNode trustWeight =
      1 - clamp (0.3 * trustWeight * alignmentScoreSpec node meme *
        (1 - complexityPenaltySpec node meme) * viralityBoostSpec node meme *
        credibilityFactorSpec meme) 0.05 0.95 := by
  have key : ∀ a b : ℚ, a = b →
      1 - max 0.05 (min 0.95 a) = 1 - clamp b 0.05 0.95 := by
    intro a b hab; rw [clamp, hab]
  simp only [calculateMemeTrustCost, alignmentScoreSpec, viralityBoostSpec,
    criticalPenaltySpec, complexityPenaltySpec, credibilityFactorSpec]
  exact key _ _ (by ring)

/-! ### C4: edge-cost bounds -/

/-- Helper: the mode-B clamp is bounded above by 0.95. -/
lemma probClamp_le (x : ℚ) : max (0.05 : ℚ) (min 0.95 x) ≤ 0.95 :=
  max_le (by norm_num) (min_le_left _ _)

/-- Helper: the mode-B clamp is bounded below by 0.05. -/
lemma le_probClamp (x : ℚ) : (0.05 : ℚ) ≤ max 0.05 (min 0.95 x) :=
  le_max_left _ _

/-- Helper: one minus the mode-B clamp is at least 0.05. -/
lemma one_sub_probClamp_lb (x : ℚ) :
    (0.05 : ℚ) ≤ 1 - max 0.05 (min 0.95 x) := by
  have := probClamp_le x; linarith

/-- Helper: one minus the mode-B clamp is at most 0.95. -/
lemma one_sub_probClamp_ub (x : ℚ) :
    1 - max (0.05 : ℚ) (min 0.95 x) ≤ 0.95 := by
  have := le_probClamp x; linarith

/-- C4: for all inputs (in particular all inputs in the documented
ranges and any trust weight), the mode-A cost lies in [0.05, 2.0] and
the mode-B cost lies in [0.05, 0.95]; being exact rationals in those
intervals they are never zero, negative or infinite. -/
theorem C4_cost_bounds (u v node sourceNode : Node) (meme : Meme)
    (w w' : ℚ) :
    (0.05 ≤ calculateSocialTrustCost u v w ∧
      calculateSocialTrustCost u v w ≤ 2.0) ∧
    (0.05 ≤ calculateMemeTrustCost node meme sourceNode w' ∧
      calculateMemeTrustCost node meme sourceNode w' ≤ 0.95) := by
  simp only [calculateSocialTrustCost, calculateMemeTrustCost]
  exact ⟨⟨le_max_left _ _, max_le (by norm_num) (min_le_left _ _)⟩,
    one_sub_probClamp_lb _, one_sub_probClamp_ub _⟩

/-! ### C10: transmission probability versus days since infection -/

/-- C10: with nonnegative social activity, virality and emotional
intensity (in particular for attributes in their documented [0,1]
ranges), `calculateTransmissionProbability` is non-increasing in
`daysSinceInfected`, and for days ≥ 4.9 it is constant (equal to its
value at 4.9, where the novelty factor bottoms out at 0.3). -/
theorem C10_transmission_antitone (node : Node) (meme : Meme)
    (d1 d2 : ℚ)
    (hsa : 0 ≤ node.attributes.social_activity)
    (hvf : 0 ≤ meme.attributes.virality_factor)
    (hei : 0 ≤ meme.attributes.emotional_intensity)
    (h12 : d1 ≤ d2) :
    calculateTransmissionProbability node meme d2 ≤
      calculateTransmissionProbability node meme d1 ∧
    (4.9 ≤ d1 →
      calculateTransmissionProbability node meme d1 =
        calculateTransmissionProbability node meme 4.9) := by
  unfold calculateTransmissionProbability clamp
  have hbase : 0 ≤ node.attributes.social_activity * meme.attributes.virality_factor *
      (1 + meme.attributes.emotional_intensity * 0.5) := by
    have : (0 : ℚ) ≤ 1 + meme.attributes.emotional_intensity * 0.5 := by linarith
    positivity
  constructor
  · have hnov : max (0.3 : ℚ) (1 - d2 / 7) ≤ max (0.3 : ℚ) (1 - d1 / 7) :=
      max_le_max le_rfl (by linarith)
    have hmul : node.attributes.social_activity * meme.attributes.virality_factor *
        (1 + meme.attributes.emotional_intensity * 0.5) * max (0.3 : ℚ) (1 - d2 / 7) ≤
        node.attributes.social_activity * meme.attributes.virality_factor *
        (1 + meme.attributes.emotional_intensity * 0.5) * max (0.3 : ℚ) (1 - d1 / 7) :=
      mul_le_mul_of_nonneg_left hnov hbase
    exact max_le_max le_rfl (min_le_min le_rfl hmul)
  · intro h49
    have e1 : max (0.3 : ℚ) (1 - d1 / 7) = 0.3 := max_eq_left (by linarith)
    have e2 : max (0.3 : ℚ) (1 - (4.9 : ℚ) / 7) = 0.3 := max_eq_left (by norm_num)
    rw [e1, e2]

/-- C10 witness: the hypotheses are satisfiable and the theorem applies
at a concrete input (attributes 0, days 5 ≤ 6). -/
theorem C10_transmission_antitone_witness :
    ((0 : ℚ) ≤ nodeZero.attributes.social_activity ∧
      (0 : ℚ) ≤ memeZeroCred.attributes.virality_factor ∧
      (0 : ℚ) ≤ memeZeroCred.attributes.emotional_intensity ∧
      (5 : ℚ) ≤ 6) ∧
    (calculateTransmissionProbability nodeZero memeZeroCred 6 ≤
      calculateTransmissionProbability nodeZero memeZeroCred 5 ∧
    ((4.9 : ℚ) ≤ 5 →
      calculateTransmissionProbability nodeZero memeZeroCred 5 =
        calculateTransmissionProbability nodeZero memeZeroCred 4.9)) :=
  ⟨⟨le_refl 0, le_refl 0, le_refl 0, by norm_num⟩,
    C10_transmission_antitone nodeZero memeZeroCred 5 6
      (le_refl 0) (le_refl 0) (le_refl 0) (by norm_num)⟩

/-! ### The dual-mode A* pathfinder (`astar.ts`, `astar-modes.ts`) -/

/-- `propagation.ts` lines 149-154: neighbors of a node are the network
nodes present as keys of its trust map. -/
def getNeighbors (network : Network) (nodeId : String) : List Node :=
  match findNode network.nodes nodeId with
  | none => []
  | some node =>
    network.nodes.filter (fun n => (recordLookup node.trust_network n.id).isSome)

/-- `astar-modes.ts` line 10: the two pathfinding modes. -/
inductive AStarMode where
  | social_trust
  | meme_trust
deriving DecidableEq

/-- An element of the A* frontier: node id, the path that reached it,
and its cumulative cost (`astar.ts` lines 124-129). -/
structure AStarEntry where
  nodeId : String
  path : List String
  gScore : ℚ
deriving DecidableEq

/-- `astar.ts` lines 26-41: the priority queue keeps its items sorted
ascending by priority (`push` appends then stable-sorts, `pop` shifts
the front).  On an already-sorted queue, appending and stable-sorting
is the same as inserting the new item behind all items of priority less
than or equal to its own. -/
def pqPush (priority : ℚ) (e : AStarEntry) :
    List (ℚ × AStarEntry) → List (ℚ × AStarEntry)
  | [] => [(priority, e)]
  | (p, x) :: rest =>
    if priority < p then (priority, e) :: (p, x) :: rest
    else (p, x) :: pqPush priority e rest

/-- `astar.ts` lines 56-65: one visualization frame.  The source always
stores `openSet: []` (a to-be-populated placeholder); the
`pathExplanations` debug strings built alongside are elided. -/
structure AStarFrame where
  step : ℕ
  currentNode : String
  openSet : List String
  closedSet : List String
  path : List String
  gScores : List (String × ℚ)
  fScores : List (String × ℚ)
  message : String
deriving DecidableEq

/-- `astar.ts` lines 70-78: the pathfinder result.  `cost := none`
encodes the source's `Infinity`. -/
structure AStarResult where
  success : Bool
  path : List String
  cost : Option ℚ
  exploredCount : ℕ
  frames : List AStarFrame
  mode : AStarMode
deriving DecidableEq

/-- `astar.ts` lines 83-95: mode dispatch for the heuristic. -/
def calculateHeuristic (currentNode targetNode : Node) (meme : Meme)
    (network : Network) : AStarMode → ℚ
  | AStarMode.social_trust => socialTrustHeuristic currentNode targetNode network
  | AStarMode.meme_trust => memeTrustHeuristic currentNode targetNode meme network

/-- The state of the source's `while` loop (`astar.ts` lines 124-220).
The network is part of the state so that the frame property (the loop
never mutates it) is statable. -/
structure AStarLoopState where
  network : Network
  startNodeId : String
  targetNodeId : String
  targetNode : Node
  meme : Meme
  mode : AStarMode
  openSet : List (ℚ × AStarEntry)
  gScores : List (String × ℚ)
  fScores : List (String × ℚ)
  closedSet : List String
  frames : List AStarFrame
  step : ℕ
deriving DecidableEq

/-- `astar.ts` lines 190-196: the per-edge cost dispatch
`if (mode === 'social_trust') ... else ...`. -/
def modeStepCost (mode : AStarMode) (meme : Meme)
    (currentNode neighbor : Node) (trustWeight : ℚ) : ℚ :=
  if mode = AStarMode.social_trust then
    calculateSocialTrustCost currentNode neighbor trustWeight
  else
    calculateMemeTrustCost neighbor meme currentNode trustWeight

/-- `astar.ts` lines 183-219: relaxation of one neighbor of the
just-expanded entry `current` (whose node object is `currentNode`). -/
def relaxNeighbor (current : AStarEntry) (currentNode : Node)
    (st : AStarLoopState) (neighbor : Node) : AStarLoopState :=
  if neighbor.id ∈ st.closedSet then st
  else
    match recordLookup currentNode.trust_network neighbor.id with
    | none => st -- unreachable: getNeighbors only yields keys of the trust map
    | some trustWeight =>
      let stepCost := modeStepCost st.mode st.meme currentNode neighbor trustWeight
      let tentativeGScore := current.gScore + stepCost
      let hScore :=
        calculateHeuristic neighbor st.targetNode st.meme st.network st.mode
      let fScore := tentativeGScore + hScore
      let newPath := current.path ++ [neighbor.id]
      let pushed :=
        { st with
          gScores := recordSet st.gScores neighbor.id tentativeGScore,
          fScores := recordSet st.fScores neighbor.id fScore,
          openSet := pqPush fScore
            { nodeId := neighbor.id, path := newPath, gScore := tentativeGScore }
            st.openSet }
      -- `gScores[id] === undefined || tentativeGScore < gScores[id]`
      match recordLookup st.gScores neighbor.id with
      | none => pushed
      | some g => if tentativeGScore < g then pushed else st

/-- One iteration of the source's `while (!openSet.isEmpty())` loop
(`astar.ts` lines 149-220): pop the lowest-f entry, record a frame,
return on target, otherwise close the node and relax its neighbors.
`Sum.inr` is a return from the function, `Sum.inl` continues looping. -/
def astarStep (st : AStarLoopState) : AStarLoopState ⊕ AStarResult :=
  match st.openSet with
  | [] =>
    Sum.inr { success := false, path := [], cost := none,
              exploredCount := st.closedSet.length, frames := st.frames,
              mode := st.mode }
  | (_, current) :: rest =>
    match findNode st.network.nodes current.nodeId with
    | none =>
      -- unreachable: every queued entry names a node of the network (the
      -- source uses a non-null assertion here)
      Sum.inr { success := false, path := [], cost := none,
                exploredCount := st.closedSet.length, frames := st.frames,
                mode := st.mode }
    | some currentNode =>
      let frame : AStarFrame :=
        { step := st.step, currentNode := current.nodeId, openSet := [],
          closedSet := st.closedSet, path := current.path,
          gScores := st.gScores, fScores := st.fScores,
          message := "Exploring node " ++ current.nodeId }
      let st1 := { st with openSet := rest,
                           frames := st.frames ++ [frame],
                           step := st.step + 1 }
      if current.nodeId = st.targetNodeId then
        Sum.inr { success := true, path := current.path,
                  cost := some current.gScore,
                  exploredCount := st1.closedSet.length, frames := st1.frames,
                  mode := st.mode }
      else
        let st2 := { st1 with closedSet := setAdd st1.closedSet current.nodeId }
        (getNeighbors st.network current.nodeId).foldl
          (relaxNeighbor current currentNode) st2 |> Sum.inl

/-- Fueled iteration of a loop body: `none` means the fuel ran out
before the loop returned. -/
def loopIter {σ ρ : Type} (stepF : σ → σ ⊕ ρ) : ℕ → σ → Option ρ
  | 0, _ => none
  | fuel + 1, st =>
    match stepF st with
    | Sum.inr r => some r
    | Sum.inl st' => loopIter stepF fuel st'

/-- The initial loop state built by `astar.ts` lines 124-147 (initial
push of the start entry and the two score maps). -/
def astarInitState (network : Network) (startNodeId targetNodeId : String)
    (startNode targetNode : Node) (meme : Meme) (mode : AStarMode) :
    AStarLoopState :=
  { network := network, startNodeId := startNodeId,
    targetNodeId := targetNodeId, targetNode := targetNode,
    meme := meme, mode := mode,
    openSet := [(0, { nodeId := startNodeId, path := [startNodeId], gScore := 0 })],
    gScores := [(startNodeId, 0)],
    fScores := [(startNodeId,
      calculateHeuristic startNode targetNode meme network mode)],
    closedSet := [], frames := [], step := 0 }

/-- `astar.ts` lines 103-231: the dual-mode A* pathfinder.  `fuel`
bounds the number of loop iterations (the source's loop always
terminates; the fuel is the shallow embedding of that fact and `none`
is returned only when it is insufficient). -/
def astarInfluencePath (network : Network) (startNodeId targetNodeId : String)
    (meme : Meme) (mode : AStarMode) (fuel : ℕ) : Option AStarResult :=
  match findNode network.nodes startNodeId,
        findNode network.nodes targetNodeId with
  | some startNode, some targetNode =>
    loopIter astarStep fuel
      (astarInitState network startNodeId targetNodeId startNode targetNode
        meme mode)
  | _, _ =>
    some { success := false, path := [], cost := none, exploredCount := 0,
           frames := [], mode := mode }

/-! ### Reference path semantics (for stating optimality) -/

/-- Cost of traversing the edge u→v under the given mode, when it
exists: both endpoints must be network nodes and v must be a key of u's
trust map. -/
def edgeCost (network : Network) (meme : Meme) (mode : AStarMode)
    (u v : String) : Option ℚ :=
  match findNode network.nodes u, findNode network.nodes v with
  | some un, some vn =>
    match recordLookup un.trust_network v with
    | some w => some (modeStepCost mode meme un vn w)
    | none => none
  | _, _ => none

/-- Total cost of a node-id sequence as a path: the sum of its edge
costs (`none` when some step is not an edge or the sequence is empty). -/
def pathCost (network : Network) (meme : Meme) (mode : AStarMode) :
    List String → Option ℚ
  | [] => none
  | [v] => if (findNode network.nodes v).isSome then some 0 else none
  | u :: v :: rest =>
    match edgeCost network meme mode u v,
          pathCost network meme mode (v :: rest) with
    | some c, some cs => some (c + cs)
    | _, _ => none

/-! ### C6: unknown source or target id -/

/-- Helper: `findNode` misses exactly when no node carries the id. -/
lemma findNode_eq_none {l : List Node} {s : String}
    (h : ∀ n ∈ l, n.id ≠ s) : findNode l s = none := by
  induction l with
  | nil => rfl
  | cons n rest ih =>
    have hn := h n (List.mem_cons_self n rest)
    simp only [findNode, if_neg hn]
    exact ih fun m hm => h m (List.mem_cons_of_mem n hm)

/-- C6: when the source id or the target id matches no node of the
network, the pathfinder immediately returns the structured failure
result — success=false, empty path, exploredCount 0, no frames — for
every fuel (no search is performed). -/
theorem C6_unknown_id_immediate_failure (network : Network)
    (startNodeId targetNodeId : String) (meme : Meme) (mode : AStarMode)
    (fuel : ℕ)
    (h : (∀ n ∈ network.nodes, n.id ≠ startNodeId) ∨
         (∀ n ∈ network.nodes, n.id ≠ targetNodeId)) :
    astarInfluencePath network startNodeId targetNodeId meme mode fuel =
      some { success := false, path := [], cost := none, exploredCount := 0,
             frames := [], mode := mode } := by
  rcases h with h | h
  · rw [astarInfluencePath, findNode_eq_none h]
  · rw [astarInfluencePath, findNode_eq_none h]
    cases findNode network.nodes startNodeId <;> rfl

/-- A one-node network used by witnesses. -/
def netSingle : Network := { nodes := [nodeZero], edges := [] }

/-- Helper: no node of `netSingle` is named "ghost". -/
lemma netSingle_no_ghost : ∀ n ∈ netSingle.nodes, n.id ≠ "ghost" := by
  intro n hn
  simp only [netSingle, List.mem_singleton] at hn
  subst hn
  simp [nodeZero]

/-- C6 witness: a concrete unknown source id on the one-node network. -/
theorem C6_unknown_id_immediate_failure_witness :
    ((∀ n ∈ netSingle.nodes, n.id ≠ "ghost") ∨
      (∀ n ∈ netSingle.nodes, n.id ≠ "n0")) ∧
    astarInfluencePath netSingle "ghost" "n0" memeZeroCred
        AStarMode.social_trust 5 =
      some { success := false, path := [], cost := none, exploredCount := 0,
             frames := [], mode := AStarMode.social_trust } :=
  ⟨Or.inl netSingle_no_ghost,
    C6_unknown_id_immediate_failure netSingle "ghost" "n0" memeZeroCred
      AStarMode.social_trust 5 (Or.inl netSingle_no_ghost)⟩

/-! ### C3: A* optimality fails (the heuristics are not admissible) -/

/-- Fixture builder: a node with the given id, identity class, political
leaning and trust map; social activity 1, all other attributes 0. -/
def mkAstarNode (id cls : String) (pl : ℚ) (trust : List (String × ℚ)) :
    Node :=
  { id := id, identity_class := cls,
    attributes :=
      { political_leaning := pl, emotional_susceptibility := 0,
        critical_thinking := 0, education_level := 0, social_activity := 1 },
    trust_network := trust, current_beliefs := [], exposure_history := [],
    state := NodeState.susceptible }

/-- Counterexample graph: the expensive route S→A→T (cost 0.32 + 0.05)
is returned although S→B→C→T (cost 3 × 0.05) is cheaper, because the
mode-A heuristic overestimates through B (politically and socially
distant from T). -/
def astarNet : Network :=
  { nodes :=
      [mkAstarNode "S" "x" 1 [("A", 1/2), ("B", 1)],
       mkAstarNode "A" "x" 1 [("S", 1/2), ("T", 1)],
       mkAstarNode "B" "y" (-1) [("S", 1), ("C", 1)],
       mkAstarNode "C" "x" 1 [("B", 1), ("T", 1)],
       mkAstarNode "T" "x" 1 [("A", 1), ("C", 1)]],
    edges :=
      [{ source := "S", target := "A", trust_weight := 1/2 },
       { source := "S", target := "B", trust_weight := 1 },
       { source := "B", target := "C", trust_weight := 1 },
       { source := "C", target := "T", trust_weight := 1 },
       { source := "A", target := "T", trust_weight := 1 }] }

/-- C3 counterexample: on `astarNet` in social-trust mode the returned
(successful) cost is 37/100, but the valid path S→B→C→T costs 3/20 <
37/100, so the returned cost is not the minimum over all paths and the
heuristic is not admissible. -/
theorem C3_counterexample :
    ((astarInfluencePath astarNet "S" "T" memeZeroCred
        AStarMode.social_trust 10).map
      (fun r => (r.success, r.path, r.cost)) =
        some (true, ["S", "A", "T"], some (37/100))) ∧
    pathCost astarNet memeZeroCred AStarMode.social_trust
        ["S", "B", "C", "T"] = some (3/20) ∧
    (3/20 : ℚ) < 37/100 := by
  refine ⟨?_, ?_, by norm_num⟩
  · norm_num +decide [astarInfluencePath, astarInitState, astarNet,
      mkAstarNode, loopIter, astarStep, relaxNeighbor, modeStepCost,
      getNeighbors, findNode, recordLookup, recordSet, setAdd, pqPush,
      calculateHeuristic, socialTrustHeuristic, calculateSocialTrustCost,
      memeZeroCred]
  · norm_num +decide [pathCost, edgeCost, astarNet, mkAstarNode, findNode,
      recordLookup, modeStepCost, calculateSocialTrustCost, memeZeroCred]

/-! ### Soundness of the returned cost (invariant machinery for C3) -/

/-- Helper: anything in a pushed queue is the new pair or was there
before. -/
lemma mem_pqPush {f : ℚ} {e : AStarEntry} {q : List (ℚ × AStarEntry)}
    {pe : ℚ × AStarEntry} (h : pe ∈ pqPush f e q) : pe = (f, e) ∨ pe ∈ q := by
  induction q with
  | nil => simpa [pqPush] using h
  | cons hd tl ih =>
    obtain ⟨p, x⟩ := hd
    simp only [pqPush] at h
    by_cases hc : f < p
    · rw [if_pos hc] at h
      rcases List.mem_cons.mp h with h1 | h2
      · exact Or.inl h1
      · exact Or.inr h2
    · rw [if_neg hc] at h
      rcases List.mem_cons.mp h with h1 | h2
      · exact Or.inr (h1 ▸ List.mem_cons_self _ _)
      · rcases ih h2 with h3 | h4
        · exact Or.inl h3
        · exact Or.inr (List.mem_cons_of_mem _ h4)

/-- Helper: with duplicate-free ids, `findNode` recovers a member node
from its id. -/
lemma findNode_of_mem {l : List Node} (hnd : (l.map Node.id).Nodup)
    {n : Node} (hm : n ∈ l) : findNode l n.id = some n := by
  induction l with
  | nil => cases hm
  | cons hd tl ih =>
    rcases List.mem_cons.mp hm with rfl | hm'
    · simp [findNode]
    · have hne : hd.id ≠ n.id := by
        intro he
        have : hd.id ∈ tl.map Node.id := he ▸ List.mem_map_of_mem Node.id hm'
        exact (List.nodup_cons.mp hnd).1 this
      rw [findNode, if_neg hne]
      exact ih (List.nodup_cons.mp hnd).2 hm'

/-- Helper: an edge cost exists only between resolvable nodes. -/
lemma edgeCost_isSome_right {network : Network} {meme : Meme}
    {mode : AStarMode} {u v : String} {c : ℚ}
    (h : edgeCost network meme mode u v = some c) :
    (findNode network.nodes v).isSome := by
  unfold edgeCost at h
  cases hu : findNode network.nodes u <;> rw [hu] at h
  · exact absurd h (by simp)
  · cases hv : findNode network.nodes v <;> rw [hv] at h
    · exact absurd h (by simp)
    · simp

/-- Helper: extending a costed path by one edge adds that edge's cost. -/
lemma pathCost_append {network : Network} {meme : Meme} {mode : AStarMode}
    {p : List String} {u v : String} {g c : ℚ}
    (hp : pathCost network meme mode p = some g)
    (hl : p.getLast? = some u)
    (he : edgeCost network meme mode u v = some c) :
    pathCost network meme mode (p ++ [v]) = some (g + c) := by
  induction p generalizing g with
  | nil => simp [pathCost] at hp
  | cons w rest ih =>
    cases rest with
    | nil =>
      have hu : w = u := by simpa using hl
      subst hu
      have hv : (findNode network.nodes v).isSome := edgeCost_isSome_right he
      by_cases hw : (findNode network.nodes w).isSome
      · simp only [pathCost] at hp
        rw [if_pos hw] at hp
        have hg : (0 : ℚ) = g := Option.some.inj hp
        show pathCost network meme mode (w :: [v]) = some (g + c)
        simp only [pathCost, he, hv, if_true]
        rw [← hg]
        norm_num
      · simp [pathCost, hw] at hp
    | cons w' rest' =>
      cases hc1 : edgeCost network meme mode w w' with
      | none =>
        simp only [pathCost] at hp
        rw [hc1] at hp
        simp at hp
      | some c1 =>
        cases hc2 : pathCost network meme mode (w' :: rest') with
        | none =>
          simp only [pathCost] at hp
          rw [hc1, hc2] at hp
          simp at hp
        | some g1 =>
          simp only [pathCost] at hp
          rw [hc1, hc2] at hp
          have hg : c1 + g1 = g := by simpa using hp
          have hl' : (w' :: rest').getLast? = some u := by
            simpa [List.getLast?_cons_cons] using hl
          have ih2 : pathCost network meme mode (w' :: (rest' ++ [v])) =
            some (g1 + c) := ih hc2 hl'
          show pathCost network meme mode (w :: w' :: (rest' ++ [v])) =
            some (g + c)
          simp only [pathCost]
          rw [hc1, ih2, ← hg]
          ring_nf

/-- Per-entry invariant of the A* frontier: the entry records a genuine
costed path of the network from the start node to the entry's node. -/
def EntryInvP (net : Network) (start : String) (meme : Meme)
    (mode : AStarMode) (e : AStarEntry) : Prop :=
  e.path.head? = some start ∧ e.path.getLast? = some e.nodeId ∧
  pathCost net meme mode e.path = some e.gScore

/-- The loop-constant fields of the A* state. -/
def StConsts (net : Network) (start target : String) (tnode : Node)
    (meme : Meme) (mode : AStarMode) (st : AStarLoopState) : Prop :=
  st.network = net ∧ st.startNodeId = start ∧ st.targetNodeId = target ∧
  st.targetNode = tnode ∧ st.meme = meme ∧ st.mode = mode

/-- Helper: members of a neighbor list are network nodes. -/
lemma mem_getNeighbors {network : Network} {nodeId : String} {nbr : Node}
    (h : nbr ∈ getNeighbors network nodeId) : nbr ∈ network.nodes := by
  unfold getNeighbors at h
  cases hf : findNode network.nodes nodeId <;> rw [hf] at h
  · cases h
  · exact (List.mem_filter.mp h).1

/-- Helper: one neighbor relaxation preserves the loop constants and the
frontier invariant. -/
lemma relaxNeighbor_sound (net : Network) (start target : String)
    (tnode : Node) (meme : Meme) (mode : AStarMode)
    (hnd : (net.nodes.map Node.id).Nodup)
    (cur : AStarEntry) (cn : Node)
    (hcn : findNode net.nodes cur.nodeId = some cn)
    (hcur : EntryInvP net start meme mode cur)
    (st : AStarLoopState) (nbr : Node) (hnbr : nbr ∈ net.nodes)
    (hst : StConsts net start target tnode meme mode st)
    (hop : ∀ pe ∈ st.openSet, EntryInvP net start meme mode pe.2) :
    StConsts net start target tnode meme mode (relaxNeighbor cur cn st nbr) ∧
    ∀ pe ∈ (relaxNeighbor cur cn st nbr).openSet,
      EntryInvP net start meme mode pe.2 := by
  obtain ⟨hnet, hstart, htgt, htn, hmeme, hmode⟩ := hst
  subst hnet hstart htgt htn hmeme hmode
  unfold relaxNeighbor
  by_cases hcl : nbr.id ∈ st.closedSet
  · rw [if_pos hcl]
    exact ⟨⟨rfl, rfl, rfl, rfl, rfl, rfl⟩, hop⟩
  · rw [if_neg hcl]
    cases hL : recordLookup cn.trust_network nbr.id with
    | none => exact ⟨⟨rfl, rfl, rfl, rfl, rfl, rfl⟩, hop⟩
    | some w =>
      have hpushInv : ∀ pe ∈ pqPush
          (cur.gScore + modeStepCost st.mode st.meme cn nbr w +
            calculateHeuristic nbr st.targetNode st.meme st.network st.mode)
          { nodeId := nbr.id, path := cur.path ++ [nbr.id],
            gScore := cur.gScore + modeStepCost st.mode st.meme cn nbr w }
          st.openSet,
          EntryInvP st.network st.startNodeId st.meme st.mode pe.2 := by
        intro pe hpe
        rcases mem_pqPush hpe with rfl | hmem
        · obtain ⟨hh, hlp, hpc⟩ := hcur
          refine ⟨?_, ?_, ?_⟩
          · show (cur.path ++ [nbr.id]).head? = some st.startNodeId
            rw [List.head?_append_of_ne_nil]
            · exact hh
            · intro hnil; rw [hnil] at hh; cases hh
          · show (cur.path ++ [nbr.id]).getLast? = some nbr.id
            exact List.getLast?_concat _
          · show pathCost st.network st.meme st.mode (cur.path ++ [nbr.id]) =
              some (cur.gScore + modeStepCost st.mode st.meme cn nbr w)
            refine pathCost_append hpc hlp ?_
            unfold edgeCost
            rw [hcn, findNode_of_mem hnd hnbr]
            simp only [hL]
        · exact hop pe hmem
      dsimp only
      cases hg : recordLookup st.gScores nbr.id with
      | none => exact ⟨⟨rfl, rfl, rfl, rfl, rfl, rfl⟩, hpushInv⟩
      | some g =>
        dsimp only
        by_cases himp : cur.gScore + modeStepCost st.mode st.meme cn nbr w < g
        · rw [if_pos himp]
          exact ⟨⟨rfl, rfl, rfl, rfl, rfl, rfl⟩, hpushInv⟩
        · rw [if_neg himp]
          exact ⟨⟨rfl, rfl, rfl, rfl, rfl, rfl⟩, hop⟩

/-- Helper: the whole neighbor fold preserves constants and the
frontier invariant. -/
lemma foldl_relax_sound (net : Network) (start target : String)
    (tnode : Node) (meme : Meme) (mode : AStarMode)
    (hnd : (net.nodes.map Node.id).Nodup)
    (cur : AStarEntry) (cn : Node)
    (hcn : findNode net.nodes cur.nodeId = some cn)
    (hcur : EntryInvP net start meme mode cur)
    (l : List Node) :
    (∀ nbr ∈ l, nbr ∈ net.nodes) →
    ∀ st, StConsts net start target tnode meme mode st →
      (∀ pe ∈ st.openSet, EntryInvP net start meme mode pe.2) →
      StConsts net start target tnode meme mode
        (l.foldl (relaxNeighbor cur cn) st) ∧
      ∀ pe ∈ (l.foldl (relaxNeighbor cur cn) st).openSet,
        EntryInvP net start meme mode pe.2 := by
  induction l with
  | nil => intro _ st hst hop; exact ⟨hst, hop⟩
  | cons nbr rest ih =>
    intro hmem st hst hop
    have h1 := relaxNeighbor_sound net start target tnode meme mode hnd cur cn
      hcn hcur st nbr (hmem nbr (List.mem_cons_self _ _)) hst hop
    exact ih (fun x hx => hmem x (List.mem_cons_of_mem _ hx)) _ h1.1 h1.2

/-- Helper: if the loop returns a success result, its path is a genuine
path of the network from the start node to the target node whose edge
costs sum to the reported cost. -/
lemma astarLoop_success_sound (net : Network) (start target : String)
    (tnode : Node) (meme : Meme) (mode : AStarMode)
    (hnd : (net.nodes.map Node.id).Nodup) :
    ∀ (fuel : ℕ) (st : AStarLoopState) (r : AStarResult),
      StConsts net start target tnode meme mode st →
      (∀ pe ∈ st.openSet, EntryInvP net start meme mode pe.2) →
      loopIter astarStep fuel st = some r → r.success = true →
      r.path.head? = some start ∧ r.path.getLast? = some target ∧
      pathCost net meme mode r.path = r.cost := by
  intro fuel
  induction fuel with
  | zero =>
    intro st r _ _ h _
    simp [loopIter] at h
  | succ fuel ih =>
    intro st r hst hop h hs
    obtain ⟨hnet, hstart, htgt, htn, hmeme, hmode⟩ := hst
    subst hnet hstart htgt htn hmeme hmode
    simp only [loopIter] at h
    cases hos : st.openSet with
    | nil =>
      simp only [astarStep, hos] at h
      obtain rfl := Option.some.inj h
      simp at hs
    | cons hd rest =>
      obtain ⟨pr, cur⟩ := hd
      have hcur : EntryInvP st.network st.startNodeId st.meme st.mode cur :=
        hop (pr, cur) (by rw [hos]; exact List.mem_cons_self _ _)
      cases hfn : findNode st.network.nodes cur.nodeId with
      | none =>
        simp only [astarStep, hos, hfn] at h
        obtain rfl := Option.some.inj h
        simp at hs
      | some cn =>
        by_cases htg : cur.nodeId = st.targetNodeId
        · simp only [astarStep, hos, hfn] at h
          rw [if_pos htg] at h
          obtain rfl := Option.some.inj h
          obtain ⟨hh, hlp, hpc⟩ := hcur
          exact ⟨hh, htg ▸ hlp, hpc⟩
        · simp only [astarStep, hos, hfn] at h
          rw [if_neg htg] at h
          have hbase : StConsts st.network st.startNodeId st.targetNodeId
              st.targetNode st.meme st.mode
              { st with openSet := rest,
                        frames := st.frames ++
                          [{ step := st.step, currentNode := cur.nodeId,
                             openSet := [], closedSet := st.closedSet,
                             path := cur.path, gScores := st.gScores,
                             fScores := st.fScores,
                             message := "Exploring node " ++ cur.nodeId }],
                        step := st.step + 1,
                        closedSet := setAdd st.closedSet cur.nodeId } :=
            ⟨rfl, rfl, rfl, rfl, rfl, rfl⟩
          have hopbase : ∀ pe ∈ rest,
              EntryInvP st.network st.startNodeId st.meme st.mode pe.2 :=
            fun pe hpe => hop pe (by rw [hos]; exact List.mem_cons_of_mem _ hpe)
          have h1 := foldl_relax_sound st.network st.startNodeId
            st.targetNodeId st.targetNode st.meme st.mode hnd cur cn hfn hcur
            (getNeighbors st.network cur.nodeId)
            (fun nbr hn => mem_getNeighbors hn) _ hbase hopbase
          exact ih _ r h1.1 h1.2 h hs

/-- C3 (amended): whenever `astarInfluencePath` succeeds on a network
with duplicate-free node ids, the returned path leads from the source
to the target and the returned cost is exactly the sum of the per-edge
costs along that returned path.  (By `C3_counterexample` that cost is
NOT always the minimum over all paths: the heuristics are not
admissible.) -/
theorem C3_returned_cost_is_path_cost (network : Network)
    (startNodeId targetNodeId : String) (meme : Meme) (mode : AStarMode)
    (fuel : ℕ) (r : AStarResult)
    (hnd : (network.nodes.map Node.id).Nodup)
    (h : astarInfluencePath network startNodeId targetNodeId meme mode fuel =
      some r)
    (hs : r.success = true) :
    r.path.head? = some startNodeId ∧ r.path.getLast? = some targetNodeId ∧
    pathCost network meme mode r.path = r.cost := by
  unfold astarInfluencePath at h
  cases hstart : findNode network.nodes startNodeId with
  | none =>
    rw [hstart] at h
    cases htgt : findNode network.nodes targetNodeId <;> rw [htgt] at h <;>
      obtain rfl := Option.some.inj h <;> simp at hs
  | some startNode =>
    rw [hstart] at h
    cases htgt : findNode network.nodes targetNodeId with
    | none =>
      rw [htgt] at h
      obtain rfl := Option.some.inj h
      simp at hs
    | some targetNode =>
      rw [htgt] at h
      refine astarLoop_success_sound network startNodeId targetNodeId
        targetNode meme mode hnd fuel _ r ⟨rfl, rfl, rfl, rfl, rfl, rfl⟩
        ?_ h hs
      intro pe hpe
      simp only [astarInitState, List.mem_singleton] at hpe
      subst hpe
      refine ⟨rfl, rfl, ?_⟩
      show pathCost network meme mode [startNodeId] = some 0
      simp [pathCost, hstart]

/-- The result of the one-node witness run (source = target = "n0"). -/
def c3WitnessResult : AStarResult :=
  { success := true, path := ["n0"], cost := some 0, exploredCount := 0,
    frames := [{ step := 0, currentNode := "n0", openSet := [],
                 closedSet := [], path := ["n0"], gScores := [("n0", 0)],
                 fScores := [("n0", 13/10)],
                 message := "Exploring node n0" }],
    mode := AStarMode.social_trust }

/-- Helper: the one-node network has duplicate-free ids. -/
lemma c3_witness_nodup : (netSingle.nodes.map Node.id).Nodup := by
  simp [netSingle, nodeZero]

/-- Helper: the concrete witness run succeeds with path ["n0"], cost 0. -/
lemma c3_witness_run :
    astarInfluencePath netSingle "n0" "n0" memeZeroCred
      AStarMode.social_trust 2 = some c3WitnessResult := by
  norm_num +decide [astarInfluencePath, astarInitState, loopIter, astarStep,
    relaxNeighbor, modeStepCost, getNeighbors, findNode, recordLookup,
    recordSet, setAdd, pqPush, calculateHeuristic, socialTrustHeuristic,
    calculateSocialTrustCost, netSingle, nodeZero, attrsZero, memeZeroCred,
    c3WitnessResult]

/-- C3 witness: the amended theorem applies to the concrete one-node
run. -/
theorem C3_returned_cost_is_path_cost_witness :
    ((netSingle.nodes.map Node.id).Nodup ∧
      astarInfluencePath netSingle "n0" "n0" memeZeroCred
        AStarMode.social_trust 2 = some c3WitnessResult ∧
      c3WitnessResult.success = true) ∧
    (c3WitnessResult.path.head? = some "n0" ∧
      c3WitnessResult.path.getLast? = some "n0" ∧
      pathCost netSingle memeZeroCred AStarMode.social_trust
        c3WitnessResult.path = c3WitnessResult.cost) :=
  ⟨⟨c3_witness_nodup, c3_witness_run, rfl⟩,
    C3_returned_cost_is_path_cost netSingle "n0" "n0" memeZeroCred
      AStarMode.social_trust 2 c3WitnessResult c3_witness_nodup
      c3_witness_run rfl⟩

/-! ### The Monte-Carlo spread estimator
(`celf-strategy.ts`, lines 367-410 of `strategy-comparison.ts`)

`Math.random()` is embedded as an explicit draw stream `rng : ℕ → ℚ`
together with a position that advances by one per draw. -/

/-- The state of one cascade run: the network and meme (read-only), the
JS `infected` set (insertion-ordered, duplicate-free list), the FIFO
`queue`, and the position in the random stream. -/
structure SimState where
  network : Network
  meme : Meme
  infected : List String
  queue : List String
  rngPos : ℕ
deriving DecidableEq

/-- Body of the `for (const [neighborId, trustWeight] of
Object.entries(currentNode.trust_network))` loop: skip infected or
unresolvable neighbors, otherwise draw once and infect on success. -/
def simVisitNeighbor (rng : ℕ → ℚ) (currentNode : Node) (acc : SimState)
    (nt : String × ℚ) : SimState :=
  if nt.1 ∈ acc.infected then acc
  else
    match findNode acc.network.nodes nt.1 with
    | none => acc
    | some neighbor =>
      if rng acc.rngPos <
          calculateAcceptanceProbability neighbor acc.meme currentNode nt.2 then
        { acc with infected := acc.infected ++ [nt.1],
                   queue := acc.queue ++ [nt.1], rngPos := acc.rngPos + 1 }
      else { acc with rngPos := acc.rngPos + 1 }

/-- One iteration of the `while (queue.length > 0)` loop: dequeue, skip
an unresolvable id (`if (!currentNode) continue`), else visit every
trust-neighbor.  `Sum.inr` returns the final infected set and stream
position. -/
def simStep (rng : ℕ → ℚ) (st : SimState) : SimState ⊕ (List String × ℕ) :=
  match st.queue with
  | [] => Sum.inr (st.infected, st.rngPos)
  | currentId :: rest =>
    let st1 := { st with queue := rest }
    match findNode st.network.nodes currentId with
    | none => Sum.inl st1
    | some currentNode =>
      Sum.inl (currentNode.trust_network.foldl (simVisitNeighbor rng currentNode) st1)

/-- Termination measure of a cascade run: queue length plus the number
of network nodes not yet infected. -/
def simMeasure (st : SimState) : ℕ :=
  st.queue.length +
    (st.network.nodes.filter (fun n => n.id ∉ st.infected)).length

/-- Helper: filtering with a stronger predicate yields at most as many
elements. -/
lemma length_filter_mono {α : Type} (l : List α) (P Q : α → Bool)
    (himp : ∀ a, Q a = true → P a = true) :
    (l.filter Q).length ≤ (l.filter P).length := by
  induction l with
  | nil => simp
  | cons a t ih =>
    cases hq : Q a with
    | true =>
      rw [List.filter_cons_of_pos hq, List.filter_cons_of_pos (himp a hq)]
      simpa using ih
    | false =>
      rw [List.filter_cons_of_neg (by simp [hq])]
      cases hp : P a with
      | true =>
        rw [List.filter_cons_of_pos hp]
        simp only [List.length_cons]
        omega
      | false => rw [List.filter_cons_of_neg (by simp [hp])]; exact ih

/-- Helper: filtering with a strictly stronger predicate that loses a
member of the list yields strictly fewer elements. -/
lemma length_filter_lt {α : Type} (l : List α) (P Q : α → Bool)
    (himp : ∀ a, Q a = true → P a = true) (n : α) (hn : n ∈ l)
    (hP : P n = true) (hQ : Q n = false) :
    (l.filter Q).length < (l.filter P).length := by
  induction l with
  | nil => cases hn
  | cons a t ih =>
    rcases List.mem_cons.mp hn with rfl | hn'
    · rw [List.filter_cons_of_neg (by simp [hQ]), List.filter_cons_of_pos hP]
      simp only [List.length_cons]
      exact Nat.lt_succ_of_le (length_filter_mono t P Q himp)
    · cases hq : Q a with
      | true =>
        rw [List.filter_cons_of_pos hq, List.filter_cons_of_pos (himp a hq)]
        simpa using ih hn'
      | false =>
        rw [List.filter_cons_of_neg (by simp [hq])]
        cases hp : P a with
        | true =>
          rw [List.filter_cons_of_pos hp]
          exact Nat.lt_succ_of_lt (ih hn')
        | false => rw [List.filter_cons_of_neg (by simp [hp])]; exact ih hn'

/-- Helper: a found node is a member carrying the looked-up id. -/
lemma findNode_some {l : List Node} {s : String} {n : Node}
    (h : findNode l s = some n) : n ∈ l ∧ n.id = s := by
  induction l with
  | nil => cases h
  | cons hd tl ih =>
    by_cases hid : hd.id = s
    · rw [findNode, if_pos hid] at h
      obtain rfl := Option.some.inj h
      exact ⟨List.mem_cons_self _ _, hid⟩
    · rw [findNode, if_neg hid] at h
      obtain ⟨hm, he⟩ := ih h
      exact ⟨List.mem_cons_of_mem _ hm, he⟩

/-- Helper: one neighbor visit keeps the graph and meme and does not
increase `queue length + uninfected count`. -/
lemma simVisitNeighbor_measure (rng : ℕ → ℚ) (cn : Node) (acc : SimState)
    (nt : String × ℚ) :
    (simVisitNeighbor rng cn acc nt).network = acc.network ∧
    (simVisitNeighbor rng cn acc nt).meme = acc.meme ∧
    simMeasure (simVisitNeighbor rng cn acc nt) ≤ simMeasure acc := by
  unfold simVisitNeighbor
  by_cases hin : nt.1 ∈ acc.infected
  · rw [if_pos hin]; exact ⟨rfl, rfl, le_refl _⟩
  · rw [if_neg hin]
    cases hfn : findNode acc.network.nodes nt.1 with
    | none => exact ⟨rfl, rfl, le_refl _⟩
    | some neighbor =>
      dsimp only
      split
      · refine ⟨rfl, rfl, ?_⟩
        obtain ⟨hmem, hid⟩ := findNode_some hfn
        unfold simMeasure
        simp only [List.length_append, List.length_singleton]
        have hlt := length_filter_lt acc.network.nodes
          (fun n => decide (n.id ∉ acc.infected))
          (fun n => decide (n.id ∉ acc.infected ++ [nt.1]))
          (by intro a ha; simp at ha ⊢; exact ha.1)
          neighbor hmem (by simp [hid, hin]) (by simp [hid])
        omega
      · exact ⟨rfl, rfl, le_refl _⟩

/-- Helper: the whole neighbor loop keeps the graph and meme and does
not increase the measure. -/
lemma simVisit_foldl_measure (rng : ℕ → ℚ) (cn : Node)
    (l : List (String × ℚ)) :
    ∀ acc : SimState,
      (l.foldl (simVisitNeighbor rng cn) acc).network = acc.network ∧
      (l.foldl (simVisitNeighbor rng cn) acc).meme = acc.meme ∧
      simMeasure (l.foldl (simVisitNeighbor rng cn) acc) ≤ simMeasure acc := by
  induction l with
  | nil => intro acc; exact ⟨rfl, rfl, le_refl _⟩
  | cons nt rest ih =>
    intro acc
    obtain ⟨h1, h2, h3⟩ := simVisitNeighbor_measure rng cn acc nt
    obtain ⟨g1, g2, g3⟩ := ih (simVisitNeighbor rng cn acc nt)
    exact ⟨g1.trans h1, g2.trans h2, g3.trans h3⟩

/-- C9: every single cascade run of the spread estimator terminates —
with fuel exceeding `queue length + number of uninfected nodes` (in
particular, seeds + all nodes), the run returns; the measure shrinks
every iteration because a node is enqueued only at the moment it joins
the infected set. -/
theorem C9_cascade_terminates (rng : ℕ → ℚ) :
    ∀ (fuel : ℕ) (st : SimState), simMeasure st < fuel →
      (loopIter (simStep rng) fuel st).isSome = true := by
  intro fuel
  induction fuel with
  | zero => intro st h; omega
  | succ fuel ih =>
    intro st hm
    simp only [loopIter]
    cases hq : st.queue with
    | nil => simp [simStep, hq]
    | cons c rest =>
      have hms : simMeasure { st with queue := rest } + 1 = simMeasure st := by
        unfold simMeasure
        simp only [hq, List.length_cons]
        omega
      cases hfn : findNode st.network.nodes c with
      | none =>
        have : simStep rng st = Sum.inl { st with queue := rest } := by
          simp only [simStep, hq, hfn]
        rw [this]
        exact ih _ (by omega)
      | some cn =>
        have hse : simStep rng st =
            Sum.inl (cn.trust_network.foldl (simVisitNeighbor rng cn)
              { st with queue := rest }) := by
          simp only [simStep, hq, hfn]
        rw [hse]
        have hfold := simVisit_foldl_measure rng cn cn.trust_network
          { st with queue := rest }
        exact ih _ (by omega)

/-- The initial state of the concrete witness cascade run. -/
def c9WitnessState : SimState :=
  { network := netSingle, meme := memeZeroCred, infected := ["n0"],
    queue := ["n0"], rngPos := 0 }

/-- Helper: the witness state's measure is below the fuel 3. -/
lemma c9_witness_measure : simMeasure c9WitnessState < 3 := by
  norm_num +decide [simMeasure, c9WitnessState, netSingle, nodeZero]

/-- C9 witness: a concrete one-node cascade run terminates within the
bound. -/
theorem C9_cascade_terminates_witness :
    simMeasure c9WitnessState < 3 ∧
    (loopIter (simStep (fun _ => 0)) 3 c9WitnessState).isSome = true :=
  ⟨c9_witness_measure,
    C9_cascade_terminates (fun _ => 0) 3 c9WitnessState c9_witness_measure⟩

/-- One full cascade run (`estimateSpread`'s inner `while` loop) with
the fuel that `C9_cascade_terminates` proves sufficient; returns the
final infected set and stream position. -/
def simRun (rng : ℕ → ℚ) (network : Network) (meme : Meme)
    (seeds : List String) (pos : ℕ) : List String × ℕ :=
  (loopIter (simStep rng)
    (simMeasure { network := network, meme := meme, infected := seeds,
                  queue := seeds, rngPos := pos } + 1)
    { network := network, meme := meme, infected := seeds, queue := seeds,
      rngPos := pos }).getD (seeds, pos)

/-- `strategy-comparison.ts` lines 367-410: `estimateSpread` — the mean
infected-set size over `simulations` cascade runs; also returns the
advanced stream position. -/
def estimateSpread (network : Network) (seedSet : List String) (meme : Meme)
    (simulations : ℕ) (rng : ℕ → ℚ) (pos : ℕ) : ℚ × ℕ :=
  let res := (List.range simulations).foldl
    (fun (acc : ℚ × ℕ) _ =>
      let run := simRun rng network meme seedSet acc.2
      (acc.1 + (run.1.length : ℚ), run.2))
    ((0 : ℚ), pos)
  (res.1 / (simulations : ℚ), res.2)

/-- `strategy-comparison.ts` lines 416-429: marginal gain
σ(S ∪ {u}) − σ(S); performs exactly two `estimateSpread` calls. -/
def calculateMarginalGain (network : Network) (seedSet : List String)
    (nodeId : String) (meme : Meme) (simulations : ℕ) (rng : ℕ → ℚ)
    (pos : ℕ) : ℚ × ℕ :=
  let spreadWithout := estimateSpread network seedSet meme simulations rng pos
  let newSeedSet := setAdd seedSet nodeId
  let spreadWith :=
    estimateSpread network newSeedSet meme simulations rng spreadWithout.2
  (spreadWith.1 - spreadWithout.1, spreadWith.2)

/-- `strategy-comparison.ts` lines 355-361: a CELF priority-queue
entry. -/
structure CELFNode where
  nodeId : String
  mg1 : ℚ
  prevBest : Option String
  mg2 : ℚ
  flag : ℕ
deriving DecidableEq

/-- Stable insertion (before the first entry of mg1 ≤ the new one) used
to model `Q.sort((a, b) => b.mg1 - a.mg1)`, JS's stable descending
sort. -/
def insertByMg1 (x : CELFNode) : List CELFNode → List CELFNode
  | [] => [x]
  | y :: ys => if y.mg1 ≤ x.mg1 then x :: y :: ys else y :: insertByMg1 x ys

/-- Stable descending sort by `mg1` (insertion sort — equal keys keep
their original order, as JS's stable `Array.prototype.sort` does). -/
def sortByMg1Desc : List CELFNode → List CELFNode
  | [] => []
  | x :: xs => insertByMg1 x (sortByMg1Desc xs)

/-- JS `Q.find(n => n.nodeId === id)`. -/
def findCELFNode : List CELFNode → String → Option CELFNode
  | [], _ => none
  | q :: rest, nid => if q.nodeId = nid then some q else findCELFNode rest nid

/-- The state of `celfSelection`'s selection loops
(`strategy-comparison.ts` lines 441-492).  `calls` counts
`estimateSpread` invocations (each `calculateMarginalGain` makes two). -/
structure CelfState where
  network : Network
  meme : Meme
  seeds : List String
  seedSet : List String
  Q : List CELFNode
  rngPos : ℕ
  calls : ℕ
deriving DecidableEq

/-- One iteration of CELF's (flattened) nested selection loops: while
seeds are under budget and the queue is nonempty, peek the top entry;
select it when its cached gain is current, otherwise recompute its gain
against the current seed set, stamp it and re-sort.  `Sum.inr` is loop
exit with the final state. -/
def celfStep (budget simulations : ℕ) (rng : ℕ → ℚ) (st : CelfState) :
    CelfState ⊕ CelfState :=
  if st.seeds.length < budget ∧ st.Q ≠ [] then
    match st.Q with
    | [] => Sum.inr st -- unreachable given the loop condition
    | u :: rest =>
      if u.flag = st.seeds.length then
        Sum.inl { st with seeds := st.seeds ++ [u.nodeId],
                          seedSet := setAdd st.seedSet u.nodeId,
                          Q := rest }
      else
        let mg := calculateMarginalGain st.network st.seedSet u.nodeId
          st.meme simulations rng st.rngPos
        Sum.inl { st with
          Q := sortByMg1Desc
            ({ u with mg1 := mg.1, flag := st.seeds.length } :: rest),
          rngPos := mg.2, calls := st.calls + 2 }
  else Sum.inr st

/-- `strategy-comparison.ts` lines 435-495: CELF (lazy forward
selection).  Returns the chosen seeds in selection order, the number of
`estimateSpread` calls performed, and the final stream position. -/
def celfSelection (network : Network) (meme : Meme)
    (budget simulations : ℕ) (rng : ℕ → ℚ) (pos : ℕ) (fuel : ℕ) :
    Option (List String × ℕ × ℕ) :=
  let init := network.nodes.foldl
    (fun (acc : List CELFNode × ℕ × ℕ) node =>
      if node.state = NodeState.susceptible then
        let mg := calculateMarginalGain network [] node.id meme simulations
          rng acc.2.1
        (acc.1 ++ [{ nodeId := node.id, mg1 := mg.1, prevBest := none,
                     mg2 := 0, flag := 0 }], mg.2, acc.2.2 + 2)
      else acc)
    ([], pos, 0)
  (loopIter (celfStep budget simulations rng) fuel
    { network := network, meme := meme, seeds := [], seedSet := [],
      Q := sortByMg1Desc init.1, rngPos := init.2.1,
      calls := init.2.2 }).map
    (fun st => (st.seeds, st.calls, st.rngPos))

/-- The state of `celfPlusPlusSelection`'s selection loops
(`strategy-comparison.ts` lines 507-590). -/
structure CelfPPState where
  network : Network
  meme : Meme
  seeds : List String
  seedSet : List String
  Q : List CELFNode
  lastSeed : Option String
  curBest : Option String
  rngPos : ℕ
  calls : ℕ
deriving DecidableEq

/-- `strategy-comparison.ts` lines 580-586: after updating the top
entry `u`, refresh `curBest` against the queue (which still holds the
updated `u` in front) and re-sort. -/
def celfPPAdvance (st : CelfPPState) (u : CELFNode) (rest : List CELFNode)
    (pos calls : ℕ) : CelfPPState :=
  let Qtmp := u :: rest
  let newCurBest :=
    match st.curBest with
    | none => some u.nodeId
    | some cb =>
      match findCELFNode Qtmp cb with
      | none => some u.nodeId -- unreachable: curBest names a queue entry
      | some cbn => if cbn.mg1 < u.mg1 then some u.nodeId else st.curBest
  { st with Q := sortByMg1Desc Qtmp, curBest := newCurBest, rngPos := pos,
            calls := calls }

/-- One iteration of CELF++'s (flattened) selection loops: select the
top entry when current; otherwise reuse its cached look-ahead gain if
its `prevBest` equals the last chosen seed, else recompute both gains;
then stamp, refresh `curBest` and re-sort. -/
def celfPPStep (budget simulations : ℕ) (rng : ℕ → ℚ) (st : CelfPPState) :
    CelfPPState ⊕ CelfPPState :=
  if st.seeds.length < budget ∧ st.Q ≠ [] then
    match st.Q with
    | [] => Sum.inr st -- unreachable given the loop condition
    | u :: rest =>
      if u.flag = st.seeds.length then
        Sum.inl { st with seeds := st.seeds ++ [u.nodeId],
                          seedSet := setAdd st.seedSet u.nodeId,
                          lastSeed := some u.nodeId,
                          Q := rest }
      else
        if u.prevBest = st.lastSeed then
          Sum.inl (celfPPAdvance st
            { u with mg1 := u.mg2, flag := st.seeds.length } rest
            st.rngPos st.calls)
        else
          let mg := calculateMarginalGain st.network st.seedSet u.nodeId
            st.meme simulations rng st.rngPos
          match st.curBest with
          | some cb =>
            let mg2 := calculateMarginalGain st.network
              (setAdd st.seedSet cb) u.nodeId st.meme simulations rng mg.2
            Sum.inl (celfPPAdvance st
              { u with mg1 := mg.1, mg2 := mg2.1, prevBest := st.curBest,
                       flag := st.seeds.length } rest
              mg2.2 (st.calls + 4))
          | none =>
            Sum.inl (celfPPAdvance st
              { u with mg1 := mg.1, prevBest := st.curBest,
                       flag := st.seeds.length } rest
              mg.2 (st.calls + 2))
  else Sum.inr st

/-- `strategy-comparison.ts` lines 501-593: CELF++ — lazy forward
selection with the `prevBest`/`mg2` look-ahead cache.  During
initialization every susceptible candidate after the first costs two
extra `estimateSpread` calls for its look-ahead gain. -/
def celfPlusPlusSelection (network : Network) (meme : Meme)
    (budget simulations : ℕ) (rng : ℕ → ℚ) (pos : ℕ) (fuel : ℕ) :
    Option (List String × ℕ × ℕ) :=
  let init := network.nodes.foldl
    (fun (acc : List CELFNode × Option String × ℕ × ℕ) node =>
      if node.state = NodeState.susceptible then
        let mg1 := calculateMarginalGain network [] node.id meme simulations
          rng acc.2.2.1
        let step2 : ℚ × ℕ × ℕ :=
          match acc.2.1 with
          | some cb =>
            let m2 := calculateMarginalGain network (setAdd [] cb) node.id
              meme simulations rng mg1.2
            (m2.1, m2.2, acc.2.2.2 + 4)
          | none => (0, mg1.2, acc.2.2.2 + 2)
        let Qnew := acc.1 ++ [{ nodeId := node.id, mg1 := mg1.1,
                                prevBest := acc.2.1, mg2 := step2.1,
                                flag := 0 }]
        let newCurBest :=
          match acc.2.1 with
          | none => some node.id
          | some cb =>
            match findCELFNode Qnew cb with
            | none => some node.id -- unreachable: curBest is in the queue
            | some cbn => if cbn.mg1 < mg1.1 then some node.id else acc.2.1
        (Qnew, newCurBest, step2.2.1, step2.2.2)
      else acc)
    ([], none, pos, 0)
  (loopIter (celfPPStep budget simulations rng) fuel
    { network := network, meme := meme, seeds := [], seedSet := [],
      Q := sortByMg1Desc init.1, lastSeed := none, curBest := init.2.1,
      rngPos := init.2.2.1, calls := init.2.2.2 }).map
    (fun st => (st.seeds, st.calls, st.rngPos))

/-! ### C8: CELF versus CELF++ -/

/-- Two isolated susceptible nodes: every singleton seed spreads to
exactly itself, so all marginal gains are deterministic (no draw is
ever consumed). -/
def celfNet : Network :=
  { nodes := [mkAstarNode "a" "x" 0 [], mkAstarNode "b" "x" 0 []],
    edges := [] }

set_option maxHeartbeats 2000000 in
/-- C8 counterexample: on `celfNet` with budget 1 and one simulation per
estimate, CELF and CELF++ both select ["a"], but CELF++ performs 6
`estimateSpread` calls against CELF's 4 — NOT strictly fewer. -/
theorem C8_counterexample :
    ((celfSelection celfNet memeZeroCred 1 1 (fun _ => 1) 0 10).map
        (fun r => (r.1, r.2.1)) = some (["a"], 4)) ∧
    ((celfPlusPlusSelection celfNet memeZeroCred 1 1 (fun _ => 1) 0 10).map
        (fun r => (r.1, r.2.1)) = some (["a"], 6)) ∧
    ¬ ((6 : ℕ) < 4) := by
  refine ⟨?_, ?_, by norm_num⟩ <;>
    norm_num +decide [celfSelection, celfPlusPlusSelection, celfStep,
      celfPPStep, celfPPAdvance, calculateMarginalGain, estimateSpread,
      simRun, simMeasure, simStep, simVisitNeighbor, loopIter,
      sortByMg1Desc, insertByMg1, findCELFNode, findNode, recordLookup,
      setAdd, calculateAcceptanceProbability, clamp, celfNet, mkAstarNode,
      memeZeroCred, List.range_succ]

set_option maxHeartbeats 2000000 in
/-- C8 (amended): with the same graph, content, budget and random
stream, the two selectors can agree on the seed set while CELF++
performs strictly MORE `estimateSpread` calls than CELF (its
initialization adds two look-ahead calls per susceptible candidate
after the first): on the two-node instance, 6 calls versus 4. -/
theorem C8_same_seeds_more_calls :
    ((celfSelection celfNet memeZeroCred 1 1 (fun _ => 1) 0 10).map
        (fun r => r.1) =
      (celfPlusPlusSelection celfNet memeZeroCred 1 1 (fun _ => 1) 0 10).map
        (fun r => r.1)) ∧
    ((celfSelection celfNet memeZeroCred 1 1 (fun _ => 1) 0 10).map
        (fun r => r.2.1) = some 4) ∧
    ((celfPlusPlusSelection celfNet memeZeroCred 1 1 (fun _ => 1) 0 10).map
        (fun r => r.2.1) = some 6) ∧
    (4 : ℕ) < 6 := by
  refine ⟨?_, ?_, ?_, by norm_num⟩ <;>
    norm_num +decide [celfSelection, celfPlusPlusSelection, celfStep,
      celfPPStep, celfPPAdvance, calculateMarginalGain, estimateSpread,
      simRun, simMeasure, simStep, simVisitNeighbor, loopIter,
      sortByMg1Desc, insertByMg1, findCELFNode, findNode, recordLookup,
      setAdd, calculateAcceptanceProbability, clamp, celfNet, mkAstarNode,
      memeZeroCred, List.range_succ]

/-! ### C7: the pathfinder and the selectors never mutate the graph -/

/-- Helper: a neighbor relaxation never touches the network. -/
lemma relaxNeighbor_network (cur : AStarEntry) (cn : Node)
    (st : AStarLoopState) (nbr : Node) :
    (relaxNeighbor cur cn st nbr).network = st.network := by
  unfold relaxNeighbor
  by_cases hcl : nbr.id ∈ st.closedSet
  · rw [if_pos hcl]
  · rw [if_neg hcl]
    cases hL : recordLookup cn.trust_network nbr.id with
    | none => rfl
    | some w =>
      dsimp only
      cases hg : recordLookup st.gScores nbr.id with
      | none => rfl
      | some g =>
        dsimp only
        by_cases himp : cur.gScore + modeStepCost st.mode st.meme cn nbr w < g
        · rw [if_pos himp]
        · rw [if_neg himp]

/-- Helper: the whole neighbor fold never touches the network. -/
lemma foldl_relax_network (cur : AStarEntry) (cn : Node) (l : List Node) :
    ∀ st : AStarLoopState,
      (l.foldl (relaxNeighbor cur cn) st).network = st.network := by
  induction l with
  | nil => intro st; rfl
  | cons nbr rest ih =>
    intro st
    exact (ih (relaxNeighbor cur cn st nbr)).trans
      (relaxNeighbor_network cur cn st nbr)

/-- C7: no loop iteration of the A* pathfinder, the Monte-Carlo cascade
(inside `estimateSpread`), CELF, or CELF++ ever changes the network —
in particular every node's `state` field (and every other node field)
is exactly as before the call; the cascade works on its ephemeral
infected set, never on `node.state`. -/
theorem C7_graph_read_only :
    (∀ st st' : AStarLoopState, astarStep st = Sum.inl st' →
      st'.network = st.network) ∧
    (∀ (rng : ℕ → ℚ) (st st' : SimState), simStep rng st = Sum.inl st' →
      st'.network = st.network) ∧
    (∀ (budget simulations : ℕ) (rng : ℕ → ℚ) (st : CelfState),
      Sum.elim (fun s : CelfState => s.network = st.network)
        (fun s : CelfState => s.network = st.network)
        (celfStep budget simulations rng st)) ∧
    (∀ (budget simulations : ℕ) (rng : ℕ → ℚ) (st : CelfPPState),
      Sum.elim (fun s : CelfPPState => s.network = st.network)
        (fun s : CelfPPState => s.network = st.network)
        (celfPPStep budget simulations rng st)) := by
  refine ⟨?_, ?_, ?_, ?_⟩
  · intro st st' h
    unfold astarStep at h
    cases hos : st.openSet with
    | nil => rw [hos] at h; cases h
    | cons hd rest =>
      obtain ⟨pr, cur⟩ := hd
      rw [hos] at h
      dsimp only at h
      cases hfn : findNode st.network.nodes cur.nodeId with
      | none => rw [hfn] at h; dsimp only at h; cases h
      | some cn =>
        rw [hfn] at h
        dsimp only at h
        by_cases htg : cur.nodeId = st.targetNodeId
        · rw [if_pos htg] at h; cases h
        · rw [if_neg htg] at h
          obtain rfl := Sum.inl.inj h
          exact foldl_relax_network cur cn _ _
  · intro rng st st' h
    unfold simStep at h
    cases hq : st.queue with
    | nil => rw [hq] at h; cases h
    | cons c rest =>
      rw [hq] at h
      dsimp only at h
      cases hfn : findNode st.network.nodes c with
      | none =>
        rw [hfn] at h
        dsimp only at h
        obtain rfl := Sum.inl.inj h
        rfl
      | some cn =>
        rw [hfn] at h
        dsimp only at h
        obtain rfl := Sum.inl.inj h
        exact (simVisit_foldl_measure rng cn cn.trust_network _).1
  · intro budget simulations rng st
    unfold celfStep
    split
    · cases hq : st.Q with
      | nil => rfl
      | cons u rest =>
        split
        · rfl
        · split <;> rfl
    · rfl
  · intro budget simulations rng st
    unfold celfPPStep
    split
    · cases hq : st.Q with
      | nil => rfl
      | cons u rest =>
        split
        · rfl
        · split
          · rfl
          · split
            · rfl
            · cases st.curBest <;> rfl
    · rfl

/-- Concrete A* loop state for the C7 witness. -/
def c7AStarState : AStarLoopState :=
  astarInitState netSingle "n0" "ghost" nodeZero nodeZero memeZeroCred
    AStarMode.social_trust

/-- The state after the first A* iteration of the C7 witness. -/
def c7AStarNext : AStarLoopState :=
  { network := netSingle, startNodeId := "n0", targetNodeId := "ghost",
    targetNode := nodeZero, meme := memeZeroCred,
    mode := AStarMode.social_trust, openSet := [], gScores := [("n0", 0)],
    fScores := [("n0", 13/10)], closedSet := ["n0"],
    frames := [{ step := 0, currentNode := "n0", openSet := [],
                 closedSet := [], path := ["n0"], gScores := [("n0", 0)],
                 fScores := [("n0", 13/10)],
                 message := "Exploring node n0" }],
    step := 1 }

/-- The state after the first cascade iteration of the C7 witness. -/
def c7SimNext : SimState :=
  { network := netSingle, meme := memeZeroCred, infected := ["n0"],
    queue := [], rngPos := 0 }

/-- Concrete CELF loop state for the C7 witness. -/
def c7CelfState : CelfState :=
  { network := netSingle, meme := memeZeroCred, seeds := [], seedSet := [],
    Q := [{ nodeId := "n0", mg1 := 1, prevBest := none, mg2 := 0,
            flag := 0 }],
    rngPos := 0, calls := 0 }

/-- Concrete CELF++ loop state for the C7 witness. -/
def c7CelfPPState : CelfPPState :=
  { network := netSingle, meme := memeZeroCred, seeds := [], seedSet := [],
    Q := [{ nodeId := "n0", mg1 := 1, prevBest := none, mg2 := 0,
            flag := 0 }],
    lastSeed := none, curBest := some "n0", rngPos := 0, calls := 0 }

/-- Helper: the concrete A* step of the C7 witness. -/
lemma c7_astar_step_eq : astarStep c7AStarState = Sum.inl c7AStarNext := by
  norm_num +decide [astarStep, astarInitState, c7AStarState, c7AStarNext,
    getNeighbors, findNode, recordLookup, setAdd, calculateHeuristic,
    socialTrustHeuristic, netSingle, nodeZero, attrsZero, memeZeroCred]

/-- Helper: the concrete cascade step of the C7 witness. -/
lemma c7_sim_step_eq :
    simStep (fun _ => 0) c9WitnessState = Sum.inl c7SimNext := by
  norm_num +decide [simStep, simVisitNeighbor, c9WitnessState, c7SimNext,
    findNode, recordLookup, netSingle, nodeZero, attrsZero, memeZeroCred]

/-- C7 witness: the theorem applies to concrete loop states of all four
algorithms. -/
theorem C7_graph_read_only_witness :
    (astarStep c7AStarState = Sum.inl c7AStarNext ∧
      c7AStarNext.network = c7AStarState.network) ∧
    (simStep (fun _ => 0) c9WitnessState = Sum.inl c7SimNext ∧
      c7SimNext.network = c9WitnessState.network) ∧
    Sum.elim (fun s : CelfState => s.network = c7CelfState.network)
      (fun s : CelfState => s.network = c7CelfState.network)
      (celfStep 1 1 (fun _ => 0) c7CelfState) ∧
    Sum.elim (fun s : CelfPPState => s.network = c7CelfPPState.network)
      (fun s : CelfPPState => s.network = c7CelfPPState.network)
      (celfPPStep 1 1 (fun _ => 0) c7CelfPPState) :=
  ⟨⟨c7_astar_step_eq, C7_graph_read_only.1 _ _ c7_astar_step_eq⟩,
    ⟨c7_sim_step_eq, C7_graph_read_only.2.1 _ _ _ c7_sim_step_eq⟩,
    C7_graph_read_only.2.2.1 1 1 (fun _ => 0) c7CelfState,
    C7_graph_read_only.2.2.2 1 1 (fun _ => 0) c7CelfPPState⟩

/-! ### C5: no-path runs explore exactly the reachable component

Reachability is taken along the `trust_network` adjacency used by
`getNeighbors`, exactly as the pathfinder traverses it. -/

/-- One hop of the trust adjacency: `v` is the id of some neighbor that
`getNeighbors` yields for `u`. -/
def adjacent (network : Network) (u v : String) : Prop :=
  v ∈ (getNeighbors network u).map Node.id

/-- Helper: overwriting a present key updates its value in place. -/
lemma recordLookup_overwrite_self (rest : List (String × ℚ)) (k : String)
    (v : ℚ) (h : (recordLookup rest k).isSome = true) :
    recordLookup (rest.map (fun kv => if kv.1 = k then (k, v) else kv)) k =
      some v := by
  induction rest with
  | nil => simp [recordLookup] at h
  | cons kv tail ih =>
    by_cases hk : kv.1 = k
    · simp only [List.map_cons, if_pos hk]
      rw [recordLookup, if_pos rfl]
    · simp only [List.map_cons, if_neg hk]
      rw [recordLookup, if_neg hk]
      apply ih
      rwa [recordLookup, if_neg hk] at h

/-- Helper: the in-place overwrite leaves other keys alone. -/
lemma recordLookup_overwrite_ne (rest : List (String × ℚ)) (k k' : String)
    (v : ℚ) (hne : k' ≠ k) :
    recordLookup (rest.map (fun kv => if kv.1 = k then (k, v) else kv)) k' =
      recordLookup rest k' := by
  induction rest with
  | nil => rfl
  | cons kv tail ih =>
    by_cases hk : kv.1 = k
    · simp only [List.map_cons, if_pos hk]
      rw [recordLookup, if_neg (fun he => hne he.symm), recordLookup,
        if_neg (fun he => hne (hk ▸ he).symm)]
      exact ih
    · simp only [List.map_cons, if_neg hk]
      by_cases hk' : kv.1 = k'
      · rw [recordLookup, if_pos hk', recordLookup, if_pos hk']
      · rw [recordLookup, if_neg hk', recordLookup, if_neg hk']
        exact ih

/-- Helper: looking up the appended key. -/
lemma recordLookup_append_self (m : List (String × ℚ)) (k : String) (v : ℚ)
    (h : recordLookup m k = none) :
    recordLookup (m ++ [(k, v)]) k = some v := by
  induction m with
  | nil => simp [recordLookup]
  | cons kv tail ih =>
    by_cases hk : kv.1 = k
    · rw [recordLookup, if_pos hk] at h; cases h
    · rw [List.cons_append, recordLookup, if_neg hk]
      exact ih (by rwa [recordLookup, if_neg hk] at h)

/-- Helper: the append leaves other keys alone. -/
lemma recordLookup_append_ne (m : List (String × ℚ)) (k k' : String)
    (v : ℚ) (hne : k' ≠ k) :
    recordLookup (m ++ [(k, v)]) k' = recordLookup m k' := by
  induction m with
  | nil =>
    simp only [List.nil_append, recordLookup]
    exact if_neg fun he => hne he.symm
  | cons kv tail ih =>
    by_cases hk' : kv.1 = k'
    · rw [List.cons_append, recordLookup, if_pos hk', recordLookup,
        if_pos hk']
    · rw [List.cons_append, recordLookup, if_neg hk', recordLookup,
        if_neg hk']
      exact ih

/-- Helper: JS record writes store the value under the key. -/
lemma recordLookup_recordSet_self (m : List (String × ℚ)) (k : String)
    (v : ℚ) : recordLookup (recordSet m k v) k = some v := by
  unfold recordSet
  by_cases h : (recordLookup m k).isSome
  · rw [if_pos h]
    exact recordLookup_overwrite_self m k v h
  · rw [if_neg h]
    apply recordLookup_append_self
    cases heq : recordLookup m k with
    | none => rfl
    | some w => rw [heq] at h; exact absurd rfl h

/-- Helper: JS record writes leave other keys alone. -/
lemma recordLookup_recordSet_ne (m : List (String × ℚ)) (k k' : String)
    (v : ℚ) (hne : k' ≠ k) :
    recordLookup (recordSet m k v) k' = recordLookup m k' := by
  unfold recordSet
  by_cases h : (recordLookup m k).isSome
  · rw [if_pos h]
    exact recordLookup_overwrite_ne m k k' v hne
  · rw [if_neg h]
    exact recordLookup_append_ne m k k' v hne

/-- Helper: `recordSet` only grows the key set. -/
lemma recordSet_isSome_mono (m : List (String × ℚ)) (k k' : String) (v : ℚ)
    (h : (recordLookup m k').isSome = true) :
    (recordLookup (recordSet m k v) k').isSome = true := by
  by_cases he : k' = k
  · subst he; rw [recordLookup_recordSet_self]; rfl
  · rw [recordLookup_recordSet_ne m k k' v he]; exact h

/-- Helper: the pushed pair is in the pushed queue. -/
lemma pqPush_self_mem (f : ℚ) (e : AStarEntry) (q : List (ℚ × AStarEntry)) :
    (f, e) ∈ pqPush f e q := by
  induction q with
  | nil => simp [pqPush]
  | cons hd tl ih =>
    obtain ⟨p, x⟩ := hd
    unfold pqPush
    by_cases hc : f < p
    · rw [if_pos hc]; exact List.mem_cons_self _ _
    · rw [if_neg hc]; exact List.mem_cons_of_mem _ ih

/-- Helper: old queue members survive a push. -/
lemma mem_pqPush_of_mem {f : ℚ} {e : AStarEntry} {q : List (ℚ × AStarEntry)}
    {pe : ℚ × AStarEntry} (h : pe ∈ q) : pe ∈ pqPush f e q := by
  induction q with
  | nil => cases h
  | cons hd tl ih =>
    obtain ⟨p, x⟩ := hd
    unfold pqPush
    by_cases hc : f < p
    · rw [if_pos hc]; exact List.mem_cons_of_mem _ h
    · rw [if_neg hc]
      rcases List.mem_cons.mp h with rfl | h'
      · exact List.mem_cons_self _ _
      · exact List.mem_cons_of_mem _ (ih h')

/-- Helper: a push grows the queue by exactly one. -/
lemma pqPush_length (f : ℚ) (e : AStarEntry) (q : List (ℚ × AStarEntry)) :
    (pqPush f e q).length = q.length + 1 := by
  induction q with
  | nil => rfl
  | cons hd tl ih =>
    obtain ⟨p, x⟩ := hd
    unfold pqPush
    by_cases hc : f < p
    · rw [if_pos hc]; rfl
    · rw [if_neg hc]; simp [ih]

/-- Helper: `setAdd` membership. -/
lemma mem_setAdd {l : List String} {x v : String} :
    v ∈ setAdd l x ↔ v ∈ l ∨ v = x := by
  unfold setAdd
  by_cases h : x ∈ l
  · rw [if_pos h]
    constructor
    · exact Or.inl
    · rintro (hv | rfl)
      · exact hv
      · exact h
  · rw [if_neg h]
    simp

/-- Helper: `setAdd` keeps the list duplicate-free. -/
lemma setAdd_nodup {l : List String} {x : String} (h : l.Nodup) :
    (setAdd l x).Nodup := by
  unfold setAdd
  by_cases hx : x ∈ l
  · rw [if_pos hx]; exact h
  · rw [if_neg hx]
    refine List.nodup_append.mpr ⟨h, List.nodup_singleton x, ?_⟩
    intro a ha hax
    rw [List.mem_singleton] at hax
    subst hax
    exact hx ha

/-- Helper: a costed edge starts at a resolvable node. -/
lemma edgeCost_isSome_left {network : Network} {meme : Meme}
    {mode : AStarMode} {u v : String} {c : ℚ}
    (h : edgeCost network meme mode u v = some c) :
    (findNode network.nodes u).isSome := by
  unfold edgeCost at h
  cases hu : findNode network.nodes u <;> rw [hu] at h
  · exact absurd h (by simp)
  · simp

/-- Helper: every node on a costed path resolves in the network. -/
lemma pathCost_findNode {network : Network} {meme : Meme}
    {mode : AStarMode} :
    ∀ {p : List String} {g : ℚ}, pathCost network meme mode p = some g →
      ∀ v ∈ p, (findNode network.nodes v).isSome = true := by
  intro p
  induction p with
  | nil => intro g hp; simp [pathCost] at hp
  | cons x rest ih =>
    intro g hp v hv
    cases rest with
    | nil =>
      rcases List.mem_singleton.mp hv with rfl
      by_cases hx : (findNode network.nodes v).isSome
      · exact hx
      · simp [pathCost, hx] at hp
    | cons y rest' =>
      cases hc1 : edgeCost network meme mode x y with
      | none => simp only [pathCost] at hp; rw [hc1] at hp; simp at hp
      | some c1 =>
        cases hc2 : pathCost network meme mode (y :: rest') with
        | none => simp only [pathCost] at hp; rw [hc1, hc2] at hp; simp at hp
        | some g1 =>
          rcases List.mem_cons.mp hv with rfl | hv'
          · exact edgeCost_isSome_left hc1
          · exact ih hc2 v hv'

/-- Helper: a costed edge is one adjacency hop. -/
lemma edgeCost_adjacent {network : Network} {meme : Meme} {mode : AStarMode}
    {u v : String} {c : ℚ} (h : edgeCost network meme mode u v = some c) :
    adjacent network u v := by
  unfold edgeCost at h
  cases hu : findNode network.nodes u <;> rw [hu] at h
  · exact absurd h (by simp)
  · cases hv : findNode network.nodes v <;> rw [hv] at h
    · exact absurd h (by simp)
    · rename_i un vn
      dsimp only at h
      cases hw : recordLookup un.trust_network v <;> rw [hw] at h
      · exact absurd h (by simp)
      · obtain ⟨hvm, hvid⟩ := findNode_some hv
        unfold adjacent getNeighbors
        rw [hu]
        have : vn ∈ network.nodes.filter
            (fun n => (recordLookup un.trust_network n.id).isSome) := by
          rw [List.mem_filter]
          exact ⟨hvm, by rw [hvid, hw]; rfl⟩
        rw [← hvid]
        exact List.mem_map_of_mem Node.id this

/-- Helper: every node on a costed path is reachable from its head. -/
lemma pathCost_reach {network : Network} {meme : Meme} {mode : AStarMode} :
    ∀ {p : List String} {g : ℚ} {us : String},
      pathCost network meme mode p = some g → p.head? = some us →
      ∀ v ∈ p, Relation.ReflTransGen (adjacent network) us v := by
  intro p
  induction p with
  | nil => intro g us hp; simp [pathCost] at hp
  | cons x rest ih =>
    intro g us hp hh v hv
    obtain rfl : x = us := by simpa using hh
    cases rest with
    | nil =>
      rcases List.mem_singleton.mp hv with rfl
      exact Relation.ReflTransGen.refl
    | cons y rest' =>
      cases hc1 : edgeCost network meme mode x y with
      | none => simp only [pathCost] at hp; rw [hc1] at hp; simp at hp
      | some c1 =>
        cases hc2 : pathCost network meme mode (y :: rest') with
        | none => simp only [pathCost] at hp; rw [hc1, hc2] at hp; simp at hp
        | some g1 =>
          rcases List.mem_cons.mp hv with rfl | hv'
          · exact Relation.ReflTransGen.refl
          · exact Relation.ReflTransGen.head (edgeCost_adjacent hc1)
              (ih hc2 rfl v hv')

/-- Helper: `getNeighbors` membership means a trust-map key. -/
lemma mem_getNeighbors_trust {network : Network} {u : String} {nbr : Node}
    (h : nbr ∈ getNeighbors network u) {un : Node}
    (hun : findNode network.nodes u = some un) :
    (recordLookup un.trust_network nbr.id).isSome = true := by
  unfold getNeighbors at h
  rw [hun] at h
  exact (List.mem_filter.mp h).2

/-- Helper: a neighbor is one adjacency hop away. -/
lemma adjacent_of_mem_getNeighbors {network : Network} {u : String}
    {nbr : Node} (h : nbr ∈ getNeighbors network u) :
    adjacent network u nbr.id :=
  List.mem_map_of_mem Node.id h

/-- The full A* loop invariant used to settle the no-path claim: every
frontier entry is a genuine simple path from the start whose interior is
finalized, the finalized set is duplicate-free, reachable and fully
keyed in `gScores`, neighbors of finalized nodes are keyed, and every
key belongs to a finalized node or a frontier entry. -/
structure AStarInv (net : Network) (start : String) (meme : Meme)
    (mode : AStarMode) (st : AStarLoopState) : Prop where
  entries : ∀ pe ∈ st.openSet, EntryInvP net start meme mode pe.2
  entrySimple : ∀ pe ∈ st.openSet, pe.2.path.Nodup ∧
    ∀ v ∈ pe.2.path.dropLast, v ∈ st.closedSet
  entryKeys : ∀ pe ∈ st.openSet,
    (recordLookup st.gScores pe.2.nodeId).isSome = true
  closedNodup : st.closedSet.Nodup
  closedReach : ∀ v ∈ st.closedSet,
    Relation.ReflTransGen (adjacent net) start v
  closedKeys : ∀ v ∈ st.closedSet,
    (recordLookup st.gScores v).isSome = true
  closedNbrKeys : ∀ v ∈ st.closedSet, ∀ nbr ∈ getNeighbors net v,
    (recordLookup st.gScores nbr.id).isSome = true
  startKey : (recordLookup st.gScores start).isSome = true
  keysCovered : ∀ v, (recordLookup st.gScores v).isSome = true →
    v ∈ st.closedSet ∨ ∃ pe ∈ st.openSet, pe.2.nodeId = v

/-- Helper: a relaxation either leaves the state unchanged or pushes the
extension of the current entry's path by the (improving, unfinalized)
neighbor. -/
lemma relaxNeighbor_cases (cur : AStarEntry) (cn : Node)
    (st : AStarLoopState) (nbr : Node) :
    (relaxNeighbor cur cn st nbr = st ∧
      (nbr.id ∈ st.closedSet ∨
        recordLookup cn.trust_network nbr.id = none ∨
        ∃ g, recordLookup st.gScores nbr.id = some g)) ∨
    ∃ w, recordLookup cn.trust_network nbr.id = some w ∧
      nbr.id ∉ st.closedSet ∧
      (recordLookup st.gScores nbr.id = none ∨
        ∃ g, recordLookup st.gScores nbr.id = some g ∧
          cur.gScore + modeStepCost st.mode st.meme cn nbr w < g) ∧
      relaxNeighbor cur cn st nbr =
        { st with
          gScores := recordSet st.gScores nbr.id
            (cur.gScore + modeStepCost st.mode st.meme cn nbr w),
          fScores := recordSet st.fScores nbr.id
            (cur.gScore + modeStepCost st.mode st.meme cn nbr w +
              calculateHeuristic nbr st.targetNode st.meme st.network st.mode),
          openSet := pqPush
            (cur.gScore + modeStepCost st.mode st.meme cn nbr w +
              calculateHeuristic nbr st.targetNode st.meme st.network st.mode)
            { nodeId := nbr.id, path := cur.path ++ [nbr.id],
              gScore := cur.gScore + modeStepCost st.mode st.meme cn nbr w }
            st.openSet } := by
  unfold relaxNeighbor
  by_cases hcl : nbr.id ∈ st.closedSet
  · rw [if_pos hcl]; exact Or.inl ⟨rfl, Or.inl hcl⟩
  · rw [if_neg hcl]
    cases hL : recordLookup cn.trust_network nbr.id with
    | none => exact Or.inl ⟨rfl, Or.inr (Or.inl rfl)⟩
    | some w =>
      dsimp only
      cases hg : recordLookup st.gScores nbr.id with
      | none => exact Or.inr ⟨w, rfl, hcl, Or.inl rfl, rfl⟩
      | some g =>
        dsimp only
        by_cases himp : cur.gScore + modeStepCost st.mode st.meme cn nbr w < g
        · rw [if_pos himp]
          exact Or.inr ⟨w, rfl, hcl, Or.inr ⟨g, rfl, himp⟩, rfl⟩
        · rw [if_neg himp]
          exact Or.inl ⟨rfl, Or.inr (Or.inr ⟨g, rfl⟩)⟩

/-- Helper: ids found in the node list are ids of the node list. -/
lemma findNode_isSome_mem_ids {l : List Node} {v : String}
    (h : (findNode l v).isSome = true) : v ∈ l.map Node.id := by
  cases hf : findNode l v with
  | none => rw [hf] at h; cases h
  | some n =>
    obtain ⟨hm, hid⟩ := findNode_some hf
    exact hid ▸ List.mem_map_of_mem Node.id hm

/-- All duplicate-free lists over the given id list — a finite
enumeration that contains every simple path. -/
def allNodupLists (ids : List String) : List (List String) :=
  ids.sublists.flatMap List.permutations

/-- A path is "improving" for a score map when it is a simple costed
path from the start whose total cost beats the recorded score of its
endpoint (or the endpoint has no score yet).  Every frontier push of
the A* loop consumes one improving path. -/
def improvingPath (net : Network) (meme : Meme) (mode : AStarMode)
    (start : String) (gs : List (String × ℚ)) (p : List String) : Prop :=
  p.Nodup ∧ (∀ v ∈ p, v ∈ net.nodes.map Node.id) ∧ p.head? = some start ∧
  ∃ c lv, pathCost net meme mode p = some c ∧ p.getLast? = some lv ∧
    ∀ g, recordLookup gs lv = some g → c < g

/-- Helper: there are finitely many improving paths. -/
lemma improvingPath_finite (net : Network) (meme : Meme) (mode : AStarMode)
    (start : String) (gs : List (String × ℚ)) :
    {p | improvingPath net meme mode start gs p}.Finite := by
  apply Set.Finite.subset
    (List.finite_toSet (allNodupLists (net.nodes.map Node.id)))
  intro p hp
  obtain ⟨hnd, hsub, -⟩ := hp
  obtain ⟨l', hperm, hsl⟩ := hnd.subperm fun v hv => hsub v hv
  show p ∈ (net.nodes.map Node.id).sublists.flatMap List.permutations
  exact List.mem_flatMap.mpr
    ⟨l', List.mem_sublists.mpr hsl, List.mem_permutations.mpr hperm.symm⟩

/-- The number of improving paths left for a score map (the potential
that strictly shrinks with every frontier push). -/
noncomputable def pathBudget (net : Network) (meme : Meme)
    (mode : AStarMode) (start : String) (gs : List (String × ℚ)) : ℕ :=
  (improvingPath_finite net meme mode start gs).toFinset.card

/-- Helper: lowering (or creating) a score only removes improving
paths. -/
lemma improving_recordSet_subset (net : Network) (meme : Meme)
    (mode : AStarMode) (start : String) (gs : List (String × ℚ))
    (k : String) (c' : ℚ)
    (hguard : recordLookup gs k = none ∨
      ∃ g, recordLookup gs k = some g ∧ c' < g) :
    {p | improvingPath net meme mode start (recordSet gs k c') p} ⊆
      {p | improvingPath net meme mode start gs p} := by
  rintro p ⟨hnd, hsub, hh, c, lv, hpc, hlast, hbeat⟩
  refine ⟨hnd, hsub, hh, c, lv, hpc, hlast, ?_⟩
  intro g hg
  by_cases hlv : lv = k
  · subst hlv
    have hc' : c < c' := hbeat c' (recordLookup_recordSet_self gs lv c')
    rcases hguard with hnone | ⟨g0, hg0, hlt⟩
    · rw [hg] at hnone; cases hnone
    · rw [hg] at hg0
      obtain rfl := Option.some.inj hg0
      exact hc'.trans hlt
  · exact hbeat g
      (by rwa [← recordLookup_recordSet_ne gs k lv c' hlv] at hg)

/-- Helper: a push strictly shrinks the path budget — the pushed path
itself stops improving. -/
lemma pathBudget_lt_of_push (net : Network) (meme : Meme) (mode : AStarMode)
    (start : String) (gs : List (String × ℚ)) (k : String) (c' : ℚ)
    (pNew : List String)
    (hguard : recordLookup gs k = none ∨
      ∃ g, recordLookup gs k = some g ∧ c' < g)
    (hmem : improvingPath net meme mode start gs pNew)
    (hlast : pNew.getLast? = some k)
    (hcost : pathCost net meme mode pNew = some c') :
    pathBudget net meme mode start (recordSet gs k c') <
      pathBudget net meme mode start gs := by
  apply Finset.card_lt_card
  refine (Finset.ssubset_iff_of_subset
    (Set.Finite.toFinset_subset_toFinset.mpr
      (improving_recordSet_subset net meme mode start gs k c' hguard))).mpr
    ⟨pNew, ?_, ?_⟩
  · exact (Set.Finite.mem_toFinset _).mpr hmem
  · rw [Set.Finite.mem_toFinset]
    rintro ⟨-, -, -, c2, lv2, hpc2, hlast2, hbeat2⟩
    rw [hcost] at hpc2
    obtain rfl := Option.some.inj hpc2
    rw [hlast] at hlast2
    obtain rfl := Option.some.inj hlast2
    exact absurd (hbeat2 c' (recordLookup_recordSet_self gs k c'))
      (lt_irrefl c')

/-- The A* loop termination measure: frontier size plus remaining
improving paths. -/
noncomputable def astarMeasure (net : Network) (meme : Meme)
    (mode : AStarMode) (start : String) (st : AStarLoopState) : ℕ :=
  st.openSet.length + pathBudget net meme mode start st.gScores

/-- Helper: a single relaxation preserves every invariant component,
never touches the finalized set, only grows the score keys, leaves the
neighbor keyed (or already finalized, given it is a trust neighbor),
and does not increase the termination measure. -/
lemma relaxNeighbor_full (net : Network) (start target : String)
    (tnode : Node) (meme : Meme) (mode : AStarMode)
    (hnd : (net.nodes.map Node.id).Nodup)
    (cur : AStarEntry) (cn : Node)
    (hcn : findNode net.nodes cur.nodeId = some cn)
    (hcur : EntryInvP net start meme mode cur)
    (hcurNodup : cur.path.Nodup)
    (st : AStarLoopState) (nbr : Node) (hnbr : nbr ∈ net.nodes)
    (htrust : (recordLookup cn.trust_network nbr.id).isSome = true)
    (hst : StConsts net start target tnode meme mode st)
    (hcurClosed : ∀ v ∈ cur.path, v ∈ st.closedSet)
    (hop : ∀ pe ∈ st.openSet, EntryInvP net start meme mode pe.2)
    (hopSimple : ∀ pe ∈ st.openSet, pe.2.path.Nodup ∧
      ∀ v ∈ pe.2.path.dropLast, v ∈ st.closedSet)
    (hopKeys : ∀ pe ∈ st.openSet,
      (recordLookup st.gScores pe.2.nodeId).isSome = true)
    (hcov : ∀ v, (recordLookup st.gScores v).isSome = true →
      v ∈ st.closedSet ∨ ∃ pe ∈ st.openSet, pe.2.nodeId = v) :
    StConsts net start target tnode meme mode (relaxNeighbor cur cn st nbr) ∧
    (relaxNeighbor cur cn st nbr).closedSet = st.closedSet ∧
    (∀ k, (recordLookup st.gScores k).isSome = true →
      (recordLookup (relaxNeighbor cur cn st nbr).gScores k).isSome = true) ∧
    (∀ pe ∈ (relaxNeighbor cur cn st nbr).openSet,
      EntryInvP net start meme mode pe.2) ∧
    (∀ pe ∈ (relaxNeighbor cur cn st nbr).openSet, pe.2.path.Nodup ∧
      ∀ v ∈ pe.2.path.dropLast, v ∈ st.closedSet) ∧
    (∀ pe ∈ (relaxNeighbor cur cn st nbr).openSet,
      (recordLookup (relaxNeighbor cur cn st nbr).gScores
        pe.2.nodeId).isSome = true) ∧
    (∀ v, (recordLookup (relaxNeighbor cur cn st nbr).gScores v).isSome =
        true →
      v ∈ st.closedSet ∨
        ∃ pe ∈ (relaxNeighbor cur cn st nbr).openSet, pe.2.nodeId = v) ∧
    ((recordLookup (relaxNeighbor cur cn st nbr).gScores nbr.id).isSome =
        true ∨ nbr.id ∈ st.closedSet) ∧
    (relaxNeighbor cur cn st nbr).openSet.length +
        pathBudget net meme mode start (relaxNeighbor cur cn st nbr).gScores ≤
      st.openSet.length + pathBudget net meme mode start st.gScores := by
  obtain ⟨hnet, hstart, htgt, htn, hmeme, hmode⟩ := hst
  subst hnet hstart htgt htn hmeme hmode
  rcases relaxNeighbor_cases cur cn st nbr with ⟨heq, hside⟩ | hpush
  · rw [heq]
    refine ⟨⟨rfl, rfl, rfl, rfl, rfl, rfl⟩, rfl, fun k hk => hk, hop,
      hopSimple, hopKeys, hcov, ?_, le_refl _⟩
    rcases hside with hclosed | hnone | ⟨g, hg⟩
    · exact Or.inr hclosed
    · rw [hnone] at htrust; cases htrust
    · exact Or.inl (by rw [hg]; rfl)
  · obtain ⟨w, hw, hcl, hguard, heq⟩ := hpush
    have hstep : edgeCost st.network st.meme st.mode cur.nodeId nbr.id =
        some (modeStepCost st.mode st.meme cn nbr w) := by
      unfold edgeCost
      rw [hcn, findNode_of_mem hnd hnbr]
      simp only [hw]
    obtain ⟨hh, hlp, hpc⟩ := hcur
    have hcurNE : cur.path ≠ [] := by
      intro hnil; rw [hnil] at hh; cases hh
    have hnotin : nbr.id ∉ cur.path :=
      fun hmem => hcl (hcurClosed nbr.id hmem)
    have hnewNodup : (cur.path ++ [nbr.id]).Nodup := by
      refine List.nodup_append.mpr
        ⟨hcurNodup, List.nodup_singleton _, ?_⟩
      intro a ha hax
      rw [List.mem_singleton] at hax
      subst hax
      exact hnotin ha
    have hnewCost : pathCost st.network st.meme st.mode
        (cur.path ++ [nbr.id]) =
        some (cur.gScore + modeStepCost st.mode st.meme cn nbr w) :=
      pathCost_append hpc hlp hstep
    have hnewHead : (cur.path ++ [nbr.id]).head? = some st.startNodeId := by
      rw [List.head?_append_of_ne_nil _ hcurNE]
      exact hh
    have hnewLast : (cur.path ++ [nbr.id]).getLast? = some nbr.id :=
      List.getLast?_concat _
    have hnewInv : EntryInvP st.network st.startNodeId st.meme st.mode
        { nodeId := nbr.id, path := cur.path ++ [nbr.id],
          gScore := cur.gScore + modeStepCost st.mode st.meme cn nbr w } :=
      ⟨hnewHead, hnewLast, hnewCost⟩
    have himp : improvingPath st.network st.meme st.mode st.startNodeId
        st.gScores (cur.path ++ [nbr.id]) := by
      refine ⟨hnewNodup, ?_, hnewHead,
        cur.gScore + modeStepCost st.mode st.meme cn nbr w, nbr.id,
        hnewCost, hnewLast, ?_⟩
      · intro v hv
        rcases List.mem_append.mp hv with hv1 | hv2
        · exact findNode_isSome_mem_ids (pathCost_findNode hpc v hv1)
        · rw [List.mem_singleton] at hv2
          subst hv2
          exact List.mem_map_of_mem Node.id hnbr
      · intro g hg
        rcases hguard with hnone | ⟨g0, hg0, hlt⟩
        · rw [hg] at hnone; cases hnone
        · rw [hg] at hg0
          obtain rfl := Option.some.inj hg0
          exact hlt
    have hbudget : pathBudget st.network st.meme st.mode st.startNodeId
        (recordSet st.gScores nbr.id
          (cur.gScore + modeStepCost st.mode st.meme cn nbr w)) <
        pathBudget st.network st.meme st.mode st.startNodeId st.gScores :=
      pathBudget_lt_of_push st.network st.meme st.mode st.startNodeId
        st.gScores nbr.id _ (cur.path ++ [nbr.id]) hguard himp hnewLast
        hnewCost
    rw [heq]
    refine ⟨⟨rfl, rfl, rfl, rfl, rfl, rfl⟩, rfl, ?_, ?_, ?_, ?_, ?_, ?_, ?_⟩
    · intro k hk
      exact recordSet_isSome_mono st.gScores nbr.id k _ hk
    · intro pe hpe
      rcases mem_pqPush hpe with rfl | hmem
      · exact hnewInv
      · exact hop pe hmem
    · intro pe hpe
      rcases mem_pqPush hpe with rfl | hmem
      · constructor
        · exact hnewNodup
        · intro v hv
          rw [List.dropLast_concat] at hv
          exact hcurClosed v hv
      · exact hopSimple pe hmem
    · intro pe hpe
      rcases mem_pqPush hpe with rfl | hmem
      · rw [recordLookup_recordSet_self]; rfl
      · exact recordSet_isSome_mono st.gScores nbr.id _ _ (hopKeys pe hmem)
    · intro v hv
      by_cases hvn : v = nbr.id
      · subst hvn
        exact Or.inr ⟨_, pqPush_self_mem _ _ _, rfl⟩
      · rw [recordLookup_recordSet_ne st.gScores nbr.id v _ hvn] at hv
        rcases hcov v hv with hc | ⟨pe, hpe, hpeid⟩
        · exact Or.inl hc
        · exact Or.inr ⟨pe, mem_pqPush_of_mem hpe, hpeid⟩
    · exact Or.inl (by rw [recordLookup_recordSet_self]; rfl)
    · dsimp only
      rw [pqPush_length]
      omega

/-- Helper: the whole neighbor fold preserves every invariant component,
keys every processed neighbor (unless finalized), and does not increase
the termination measure. -/
lemma foldl_relax_full (net : Network) (start target : String)
    (tnode : Node) (meme : Meme) (mode : AStarMode)
    (hnd : (net.nodes.map Node.id).Nodup)
    (cur : AStarEntry) (cn : Node)
    (hcn : findNode net.nodes cur.nodeId = some cn)
    (hcur : EntryInvP net start meme mode cur)
    (hcurNodup : cur.path.Nodup) :
    ∀ (l : List Node),
      (∀ nbr ∈ l, nbr ∈ net.nodes ∧
        (recordLookup cn.trust_network nbr.id).isSome = true) →
      ∀ st : AStarLoopState, StConsts net start target tnode meme mode st →
        (∀ v ∈ cur.path, v ∈ st.closedSet) →
        (∀ pe ∈ st.openSet, EntryInvP net start meme mode pe.2) →
        (∀ pe ∈ st.openSet, pe.2.path.Nodup ∧
          ∀ v ∈ pe.2.path.dropLast, v ∈ st.closedSet) →
        (∀ pe ∈ st.openSet,
          (recordLookup st.gScores pe.2.nodeId).isSome = true) →
        (∀ v, (recordLookup st.gScores v).isSome = true →
          v ∈ st.closedSet ∨ ∃ pe ∈ st.openSet, pe.2.nodeId = v) →
        StConsts net start target tnode meme mode
          (l.foldl (relaxNeighbor cur cn) st) ∧
        (l.foldl (relaxNeighbor cur cn) st).closedSet = st.closedSet ∧
        (∀ k, (recordLookup st.gScores k).isSome = true →
          (recordLookup (l.foldl (relaxNeighbor cur cn) st).gScores
            k).isSome = true) ∧
        (∀ pe ∈ (l.foldl (relaxNeighbor cur cn) st).openSet,
          EntryInvP net start meme mode pe.2) ∧
        (∀ pe ∈ (l.foldl (relaxNeighbor cur cn) st).openSet,
          pe.2.path.Nodup ∧ ∀ v ∈ pe.2.path.dropLast, v ∈ st.closedSet) ∧
        (∀ pe ∈ (l.foldl (relaxNeighbor cur cn) st).openSet,
          (recordLookup (l.foldl (relaxNeighbor cur cn) st).gScores
            pe.2.nodeId).isSome = true) ∧
        (∀ v, (recordLookup (l.foldl (relaxNeighbor cur cn) st).gScores
            v).isSome = true →
          v ∈ st.closedSet ∨
            ∃ pe ∈ (l.foldl (relaxNeighbor cur cn) st).openSet,
              pe.2.nodeId = v) ∧
        (∀ nbr ∈ l,
          (recordLookup (l.foldl (relaxNeighbor cur cn) st).gScores
            nbr.id).isSome = true ∨ nbr.id ∈ st.closedSet) ∧
        (l.foldl (relaxNeighbor cur cn) st).openSet.length +
            pathBudget net meme mode start
              (l.foldl (relaxNeighbor cur cn) st).gScores ≤
          st.openSet.length + pathBudget net meme mode start st.gScores := by
  intro l
  induction l with
  | nil =>
    intro _ st hst hcl hop hops hopk hcov
    exact ⟨hst, rfl, fun k hk => hk, hop, hops, hopk, hcov,
      fun nbr hn => absurd hn (List.not_mem_nil nbr), le_refl _⟩
  | cons nbr rest ih =>
    intro hl st hst hcl hop hops hopk hcov
    obtain ⟨hnbr, htrust⟩ := hl nbr (List.mem_cons_self _ _)
    obtain ⟨s1, s2, s3, s4, s5, s6, s7, s8, s9⟩ :=
      relaxNeighbor_full net start target tnode meme mode hnd cur cn hcn
        hcur hcurNodup st nbr hnbr htrust hst hcl hop hops hopk hcov
    obtain ⟨f1, f2, f3, f4, f5, f6, f7, f8, f9⟩ :=
      ih (fun x hx => hl x (List.mem_cons_of_mem _ hx))
        (relaxNeighbor cur cn st nbr) s1 (by rw [s2]; exact hcl) s4
        (by rw [s2]; exact s5) s6 (by rw [s2]; exact s7)
    rw [List.foldl_cons]
    refine ⟨f1, by rw [f2, s2], fun k hk => f3 k (s3 k hk), f4,
      by rw [← s2]; exact f5, f6, by rw [← s2]; exact f7, ?_, ?_⟩
    · intro x hx
      rcases List.mem_cons.mp hx with rfl | hx'
      · rcases s8 with hkey | hclosed
        · exact Or.inl (f3 _ hkey)
        · exact Or.inr hclosed
      · rcases f8 x hx' with hkey | hclosed
        · exact Or.inl hkey
        · rw [s2] at hclosed
          exact Or.inr hclosed
    · exact f9.trans s9

/-- Helper: the optional last element is a member. -/
lemma getLast?_mem {α : Type} {l : List α} {a : α}
    (h : l.getLast? = some a) : a ∈ l := by
  cases l with
  | nil => cases h
  | cons x xs =>
    have hne : x :: xs ≠ [] := by simp
    rw [List.getLast?_eq_getLast _ hne] at h
    obtain rfl := Option.some.inj h
    exact List.getLast_mem hne

/-- Helper: a member is in the front or is the last element. -/
lemma mem_dropLast_or_eq_getLast {α : Type} {l : List α} {a v : α}
    (hl : l.getLast? = some a) (hv : v ∈ l) : v ∈ l.dropLast ∨ v = a := by
  cases l with
  | nil => cases hv
  | cons x xs =>
    have hne : x :: xs ≠ [] := by simp
    rw [List.getLast?_eq_getLast _ hne] at hl
    obtain rfl := Option.some.inj hl
    rw [← List.dropLast_append_getLast hne] at hv
    rcases List.mem_append.mp hv with hv1 | hv2
    · exact Or.inl hv1
    · exact Or.inr (List.mem_singleton.mp hv2)

/-- Helper: a continuing A* iteration preserves the loop invariant and
strictly decreases the termination measure. -/
lemma astarStep_inl_full (net : Network) (start target : String)
    (tnode : Node) (meme : Meme) (mode : AStarMode)
    (hnd : (net.nodes.map Node.id).Nodup)
    (st st' : AStarLoopState)
    (hst : StConsts net start target tnode meme mode st)
    (hinv : AStarInv net start meme mode st)
    (hstep : astarStep st = Sum.inl st') :
    StConsts net start target tnode meme mode st' ∧
    AStarInv net start meme mode st' ∧
    astarMeasure net meme mode start st' < astarMeasure net meme mode start st := by
  obtain ⟨hnet, hstart, htgt, htn, hmeme, hmode⟩ := hst
  subst hnet hstart htgt htn hmeme hmode
  unfold astarStep at hstep
  cases hos : st.openSet with
  | nil => rw [hos] at hstep; cases hstep
  | cons hd rest =>
    obtain ⟨pr, cur⟩ := hd
    rw [hos] at hstep
    dsimp only at hstep
    cases hfn : findNode st.network.nodes cur.nodeId with
    | none => rw [hfn] at hstep; dsimp only at hstep; cases hstep
    | some cn =>
      rw [hfn] at hstep
      dsimp only at hstep
      by_cases htgt2 : cur.nodeId = st.targetNodeId
      · rw [if_pos htgt2] at hstep; cases hstep
      · rw [if_neg htgt2] at hstep
        obtain rfl := Sum.inl.inj hstep
        have hcurMem : (pr, cur) ∈ st.openSet := by
          rw [hos]; exact List.mem_cons_self _ _
        have hcur := hinv.entries _ hcurMem
        obtain ⟨hcurNodup, hcurDrop⟩ := hinv.entrySimple _ hcurMem
        obtain ⟨hh, hlp, hpc⟩ := hcur
        -- the base state after closing the current node
        have hcurClosed2 : ∀ v ∈ cur.path,
            v ∈ setAdd st.closedSet cur.nodeId := by
          intro v hv
          rcases mem_dropLast_or_eq_getLast hlp hv with hv1 | rfl
          · exact mem_setAdd.mpr (Or.inl (hcurDrop v hv1))
          · exact mem_setAdd.mpr (Or.inr rfl)
        obtain ⟨f1, f2, f3, f4, f5, f6, f7, f8, f9⟩ :=
          foldl_relax_full st.network st.startNodeId st.targetNodeId
            st.targetNode st.meme st.mode hnd cur cn hfn ⟨hh, hlp, hpc⟩
            hcurNodup (getNeighbors st.network cur.nodeId)
            (fun nbr hn =>
              ⟨mem_getNeighbors hn, mem_getNeighbors_trust hn hfn⟩)
            { st with openSet := rest,
                      frames := st.frames ++
                        [{ step := st.step, currentNode := cur.nodeId,
                           openSet := [], closedSet := st.closedSet,
                           path := cur.path, gScores := st.gScores,
                           fScores := st.fScores,
                           message := "Exploring node " ++ cur.nodeId }],
                      step := st.step + 1,
                      closedSet := setAdd st.closedSet cur.nodeId }
            ⟨rfl, rfl, rfl, rfl, rfl, rfl⟩ hcurClosed2
            (fun pe hpe => hinv.entries pe
              (by rw [hos]; exact List.mem_cons_of_mem _ hpe))
            (fun pe hpe =>
              ⟨(hinv.entrySimple pe
                  (by rw [hos]; exact List.mem_cons_of_mem _ hpe)).1,
               fun v hv => mem_setAdd.mpr (Or.inl
                 ((hinv.entrySimple pe
                   (by rw [hos]; exact List.mem_cons_of_mem _ hpe)).2 v hv))⟩)
            (fun pe hpe => hinv.entryKeys pe
              (by rw [hos]; exact List.mem_cons_of_mem _ hpe))
            (fun v hv => by
              rcases hinv.keysCovered v hv with hc | ⟨pe, hpe, hpeid⟩
              · exact Or.inl (mem_setAdd.mpr (Or.inl hc))
              · rw [hos] at hpe
                rcases List.mem_cons.mp hpe with rfl | hpe'
                · exact Or.inl (mem_setAdd.mpr (Or.inr hpeid.symm))
                · exact Or.inr ⟨pe, hpe', hpeid⟩)
        refine ⟨f1, ?_, ?_⟩
        · -- the invariant for the fold result
          have hclosed2Keys : ∀ v ∈ setAdd st.closedSet cur.nodeId,
              (recordLookup st.gScores v).isSome = true := by
            intro v hv
            rcases mem_setAdd.mp hv with hv1 | rfl
            · exact hinv.closedKeys v hv1
            · exact hinv.entryKeys _ hcurMem
          refine ⟨f4, by rw [f2]; exact f5, f6, ?_, ?_, ?_, ?_, ?_, ?_⟩
          · rw [f2]
            exact setAdd_nodup hinv.closedNodup
          · rw [f2]
            intro v hv
            rcases mem_setAdd.mp hv with hv1 | rfl
            · exact hinv.closedReach v hv1
            · exact pathCost_reach hpc hh cur.nodeId (getLast?_mem hlp)
          · rw [f2]
            intro v hv
            exact f3 v (hclosed2Keys v hv)
          · rw [f2]
            intro v hv nbr hnbr
            rcases mem_setAdd.mp hv with hv1 | rfl
            · exact f3 _ (hinv.closedNbrKeys v hv1 nbr hnbr)
            · rcases f8 nbr hnbr with hkey | hclosed
              · exact hkey
              · exact f3 _ (hclosed2Keys _ hclosed)
          · exact f3 _ hinv.startKey
          · rw [f2]
            exact f7
        · -- the measure strictly decreases
          have hle := f9
          unfold astarMeasure
          have : st.openSet.length = rest.length + 1 := by
            rw [hos]; rfl
          dsimp only at hle ⊢
          omega

/-- Helper: a returning A* iteration either exhausted the frontier and
reported the finalized count, or popped the target — which is then
reachable from the start. -/
lemma astarStep_inr_full (net : Network) (start target : String)
    (tnode : Node) (meme : Meme) (mode : AStarMode)
    (st : AStarLoopState) (r : AStarResult)
    (hst : StConsts net start target tnode meme mode st)
    (hinv : AStarInv net start meme mode st)
    (hstep : astarStep st = Sum.inr r) :
    (st.openSet = [] ∧
      r = { success := false, path := [], cost := none,
            exploredCount := st.closedSet.length, frames := st.frames,
            mode := mode }) ∨
    Relation.ReflTransGen (adjacent net) start target := by
  obtain ⟨hnet, hstart, htgt, htn, hmeme, hmode⟩ := hst
  subst hnet hstart htgt htn hmeme hmode
  unfold astarStep at hstep
  cases hos : st.openSet with
  | nil =>
    rw [hos] at hstep
    dsimp only at hstep
    exact Or.inl ⟨rfl, (Sum.inr.inj hstep).symm⟩
  | cons hd rest =>
    obtain ⟨pr, cur⟩ := hd
    rw [hos] at hstep
    dsimp only at hstep
    have hcurMem : (pr, cur) ∈ st.openSet := by
      rw [hos]; exact List.mem_cons_self _ _
    obtain ⟨hh, hlp, hpc⟩ := hinv.entries _ hcurMem
    cases hfn : findNode st.network.nodes cur.nodeId with
    | none =>
      exact absurd (pathCost_findNode hpc cur.nodeId (getLast?_mem hlp))
        (by rw [hfn]; simp)
    | some cn =>
      rw [hfn] at hstep
      dsimp only at hstep
      by_cases htgt2 : cur.nodeId = st.targetNodeId
      · exact Or.inr (htgt2 ▸
          pathCost_reach hpc hh cur.nodeId (getLast?_mem hlp))
      · rw [if_neg htgt2] at hstep
        cases hstep

/-- Helper: from any invariant state the A* loop returns for some
fuel — the measure strictly decreases each iteration. -/
lemma astarLoop_terminates (net : Network) (start target : String)
    (tnode : Node) (meme : Meme) (mode : AStarMode)
    (hnd : (net.nodes.map Node.id).Nodup) :
    ∀ st : AStarLoopState, StConsts net start target tnode meme mode st →
      AStarInv net start meme mode st →
      ∃ fuel r, loopIter astarStep fuel st = some r := by
  have main : ∀ (M : ℕ) (st : AStarLoopState),
      astarMeasure net meme mode start st = M →
      StConsts net start target tnode meme mode st →
      AStarInv net start meme mode st →
      ∃ fuel r, loopIter astarStep fuel st = some r := by
    intro M
    induction M using Nat.strong_induction_on with
    | _ M ih =>
      intro st hM hst hinv
      cases hstep : astarStep st with
      | inr r => exact ⟨1, r, by simp [loopIter, hstep]⟩
      | inl st' =>
        obtain ⟨hst', hinv', hlt⟩ := astarStep_inl_full net start target
          tnode meme mode hnd st st' hst hinv hstep
        obtain ⟨fuel, r, hr⟩ := ih (astarMeasure net meme mode start st')
          (hM ▸ hlt) st' rfl hst' hinv'
        exact ⟨fuel + 1, r, by simp [loopIter, hstep, hr]⟩
  intro st hst hinv
  exact main (astarMeasure net meme mode start st) st rfl hst hinv

/-- Helper: with the target unreachable, any returning run reports
failure and finalizes exactly the reachable ids. -/
lemma astarLoop_nopath (net : Network) (start target : String)
    (tnode : Node) (meme : Meme) (mode : AStarMode)
    (hnd : (net.nodes.map Node.id).Nodup)
    (hunreach : ¬ Relation.ReflTransGen (adjacent net) start target) :
    ∀ (fuel : ℕ) (st : AStarLoopState) (r : AStarResult),
      StConsts net start target tnode meme mode st →
      AStarInv net start meme mode st →
      loopIter astarStep fuel st = some r →
      r.success = false ∧ ∃ L : List String, L.Nodup ∧
        r.exploredCount = L.length ∧
        ∀ v, v ∈ L ↔ Relation.ReflTransGen (adjacent net) start v := by
  intro fuel
  induction fuel with
  | zero => intro st r _ _ h; simp [loopIter] at h
  | succ fuel ih =>
    intro st r hst hinv h
    simp only [loopIter] at h
    cases hstep : astarStep st with
    | inl st' =>
      rw [hstep] at h
      obtain ⟨hst', hinv', -⟩ := astarStep_inl_full net start target tnode
        meme mode hnd st st' hst hinv hstep
      exact ih st' r hst' hinv' h
    | inr r0 =>
      rw [hstep] at h
      obtain rfl := Option.some.inj h
      rcases astarStep_inr_full net start target tnode meme mode st r0 hst
        hinv hstep with ⟨hempty, rfl⟩ | hreach
      · refine ⟨rfl, st.closedSet, hinv.closedNodup, rfl, ?_⟩
        intro v
        constructor
        · exact hinv.closedReach v
        · intro hreach
          have hstartClosed : start ∈ st.closedSet := by
            rcases hinv.keysCovered start hinv.startKey with hc | ⟨pe, hpe, -⟩
            · exact hc
            · rw [hempty] at hpe; cases hpe
          have hclosedStep : ∀ a b, a ∈ st.closedSet → adjacent net a b →
              b ∈ st.closedSet := by
            intro a b ha hab
            obtain ⟨nbr, hnbr, rfl⟩ := List.mem_map.mp hab
            have hkey := hinv.closedNbrKeys a ha nbr hnbr
            rcases hinv.keysCovered _ hkey with hc | ⟨pe, hpe, -⟩
            · exact hc
            · rw [hempty] at hpe; cases hpe
          induction hreach with
          | refl => exact hstartClosed
          | tail h1 h2 ihr => exact hclosedStep _ _ ihr h2
      · exact absurd hreach hunreach

/-- C5: when the target is not reachable from the source along the
trust adjacency (in particular when they lie in disjoint components),
the pathfinder terminates with a failure whose `exploredCount` is
exactly the number of ids reachable from the source (source included):
the loop returns for sufficient fuel, and every returning run reports
failure together with a duplicate-free list of exactly the reachable
ids whose length is `exploredCount`. -/
theorem C5_no_path_explores_component (network : Network)
    (startNodeId targetNodeId : String) (meme : Meme) (mode : AStarMode)
    (hnd : (network.nodes.map Node.id).Nodup)
    (hs : (findNode network.nodes startNodeId).isSome = true)
    (ht : (findNode network.nodes targetNodeId).isSome = true)
    (hunreach : ¬ Relation.ReflTransGen (adjacent network) startNodeId
      targetNodeId) :
    (∃ fuel r, astarInfluencePath network startNodeId targetNodeId meme
      mode fuel = some r) ∧
    ∀ fuel r, astarInfluencePath network startNodeId targetNodeId meme
      mode fuel = some r →
      r.success = false ∧ ∃ L : List String, L.Nodup ∧
        r.exploredCount = L.length ∧
        ∀ v, v ∈ L ↔ Relation.ReflTransGen (adjacent network) startNodeId v := by
  cases hsf : findNode network.nodes startNodeId with
  | none => rw [hsf] at hs; cases hs
  | some startNode =>
    cases htf : findNode network.nodes targetNodeId with
    | none => rw [htf] at ht; cases ht
    | some targetNode =>
      have hkey0 : (recordLookup [(startNodeId, (0 : ℚ))]
          startNodeId).isSome = true := by
        rw [recordLookup, if_pos rfl]; rfl
      have hinit : AStarInv network startNodeId meme mode
          (astarInitState network startNodeId targetNodeId startNode
            targetNode meme mode) := by
        refine ⟨?_, ?_, ?_, ?_, ?_, ?_, ?_, ?_, ?_⟩
        · intro pe hpe
          obtain rfl := List.mem_singleton.mp hpe
          exact ⟨rfl, rfl, by simp [pathCost, hsf]⟩
        · intro pe hpe
          obtain rfl := List.mem_singleton.mp hpe
          exact ⟨List.nodup_singleton _, by simp⟩
        · intro pe hpe
          obtain rfl := List.mem_singleton.mp hpe
          exact hkey0
        · simp [astarInitState]
        · intro v hv; exact absurd hv (List.not_mem_nil v)
        · intro v hv; exact absurd hv (List.not_mem_nil v)
        · intro v hv; exact absurd hv (List.not_mem_nil v)
        · exact hkey0
        · intro v hv
          show v ∈ ([] : List String) ∨ _
          right
          refine ⟨((0 : ℚ), (⟨startNodeId, [startNodeId], (0 : ℚ)⟩ :
            AStarEntry)), List.mem_singleton.mpr rfl, ?_⟩
          show startNodeId = v
          by_cases he : startNodeId = v
          · exact he
          · rw [show (astarInitState network startNodeId targetNodeId
                startNode targetNode meme mode).gScores =
                [(startNodeId, (0 : ℚ))] from rfl] at hv
            rw [recordLookup, if_neg he] at hv
            cases hv
      constructor
      · obtain ⟨fuel, r, hr⟩ := astarLoop_terminates network startNodeId
          targetNodeId targetNode meme mode hnd _
          ⟨rfl, rfl, rfl, rfl, rfl, rfl⟩ hinit
        refine ⟨fuel, r, ?_⟩
        unfold astarInfluencePath
        rw [hsf, htf]
        exact hr
      · intro fuel r h
        unfold astarInfluencePath at h
        rw [hsf, htf] at h
        exact astarLoop_nopath network startNodeId targetNodeId targetNode
          meme mode hnd hunreach fuel _ r ⟨rfl, rfl, rfl, rfl, rfl, rfl⟩
          hinit h

/-- Helper: nobody is adjacent to anybody in `celfNet` (both nodes have
an empty trust network). -/
lemma celfNet_no_adjacency (u v : String) : ¬ adjacent celfNet u v := by
  intro h
  rw [adjacent] at h
  cases hf : findNode celfNet.nodes u with
  | none => rw [getNeighbors, hf] at h; simp at h
  | some node =>
    obtain ⟨hm, -⟩ := findNode_some hf
    have hm' : node ∈ [mkAstarNode "a" "x" 0 [], mkAstarNode "b" "x" 0 []] :=
      hm
    have htr : node.trust_network = [] := by
      rcases List.mem_cons.mp hm' with rfl | hm2
      · rfl
      · rcases List.mem_cons.mp hm2 with rfl | hm3
        · rfl
        · exact absurd hm3 (List.not_mem_nil _)
    rw [getNeighbors, hf] at h
    simp [htr, recordLookup] at h

/-- Helper: in particular "b" is unreachable from "a" in `celfNet`. -/
lemma celfNet_unreach :
    ¬ Relation.ReflTransGen (adjacent celfNet) "a" "b" := by
  intro h
  rcases Relation.ReflTransGen.cases_head h with he | ⟨c, hac, -⟩
  · exact absurd he (by decide)
  · exact celfNet_no_adjacency _ _ hac

/-- Witness for C5 on the concrete two-component network `celfNet`
("a" and "b" are both present, mutually unreachable). -/
theorem C5_no_path_explores_component_witness :
    (celfNet.nodes.map Node.id).Nodup ∧
    (findNode celfNet.nodes "a").isSome = true ∧
    (findNode celfNet.nodes "b").isSome = true ∧
    ¬ Relation.ReflTransGen (adjacent celfNet) "a" "b" ∧
    ((∃ fuel r, astarInfluencePath celfNet "a" "b" memeZeroCred
      AStarMode.social_trust fuel = some r) ∧
    ∀ fuel r, astarInfluencePath celfNet "a" "b" memeZeroCred
      AStarMode.social_trust fuel = some r →
      r.success = false ∧ ∃ L : List String, L.Nodup ∧
        r.exploredCount = L.length ∧
        ∀ v, v ∈ L ↔ Relation.ReflTransGen (adjacent celfNet) "a" v) := by
  have h1 : (celfNet.nodes.map Node.id).Nodup := by decide
  have h2 : (findNode celfNet.nodes "a").isSome = true := by decide
  have h3 : (findNode celfNet.nodes "b").isSome = true := by decide
  exact ⟨h1, h2, h3, celfNet_unreach,
    C5_no_path_explores_component celfNet "a" "b" memeZeroCred
      AStarMode.social_trust h1 h2 h3 celfNet_unreach⟩

end MemeticWarfare
